import Mathlib

/-!
# Canvas Users Manager: selection and pagination controller

A shallow embedding of `static/js/app.js` (the browser side of the user
manager) and the properties of its selection store, page cache, select-all
control, persistence and export trigger.

Conventions of the embedding

* The script keeps its state in module-level variables and in a handful of
  DOM elements.  Both are gathered in `State`; every function of the script
  becomes a function from states to states.
* An `async` function is cut at its `await`: the part that runs when it is
  called (`loadUsersStart`) and the part that runs when the awaited response
  is delivered (`loadUsersResume`).  An interleaving of two calls is a
  sequence of such parts.
* Values that come out of `JSON.parse` are `JsVal`.  Numbers are exact
  integers (`num`) or exact non-integral decimals (`dec`); this is exact for
  the safe integers that user identifiers are.  `SameValueZero`, the equality
  of `Set`, is structural equality of `JsVal`; this is exact for null,
  booleans, numbers and strings.
* A JavaScript `Set` is a duplicate-free list in insertion order (`JSSet`).
* `JSON.parse` and `JSON.stringify` are modelled on the characters of the
  text.  The reader carries a recursion budget; `jsonParse_fuel_adequate`
  shows that the budget never runs out, so a failed read is a syntax error.
* `localStorage` is a map from keys to items; the responses of the server and
  the answers of the user are arguments of the functions that wait for them.
* The records of a page and the `pagination` object are typed as the list
  endpoint documents them; a response that cannot be read that far is a
  `FetchFailure`.

The file has two parts: the definitions (the embedding, then the sample states
and predicates that the statements use), and the theorems.  The equality test
of `JsVal` is the one exception: its correctness is proved where it is defined,
because the `Set` operations need it.
-/

namespace UfvUserManager

/-! ## JavaScript values -/

/-- A value produced by `JSON.parse`. -/
inductive JsVal where
  | null
  | bool (b : Bool)
  | num (n : Int)
  | dec (mantissa : Int) (scale : Nat)
  | str (s : String)
  | arr (xs : List JsVal)
  | obj (kvs : List (String × JsVal))

mutual
/-- Structural equality test on values. -/
def JsVal.beq : JsVal → JsVal → Bool
  | .null, .null => true
  | .bool a, .bool b => a == b
  | .num a, .num b => a == b
  | .dec m s, .dec n t => m == n && s == t
  | .str a, .str b => a == b
  | .arr xs, .arr ys => JsVal.beqList xs ys
  | .obj xs, .obj ys => JsVal.beqFields xs ys
  | _, _ => false
/-- Structural equality test on lists of values. -/
def JsVal.beqList : List JsVal → List JsVal → Bool
  | [], [] => true
  | x :: xs, y :: ys => JsVal.beq x y && JsVal.beqList xs ys
  | _, _ => false
/-- Structural equality test on object members. -/
def JsVal.beqFields : List (String × JsVal) → List (String × JsVal) → Bool
  | [], [] => true
  | (k, x) :: xs, (l, y) :: ys => k == l && JsVal.beq x y && JsVal.beqFields xs ys
  | _, _ => false
end

mutual
theorem JsVal.beq_iff : ∀ a b : JsVal, JsVal.beq a b = true ↔ a = b
  | .null, b => by cases b <;> simp [JsVal.beq]
  | .bool x, b => by cases b <;> simp [JsVal.beq]
  | .num x, b => by cases b <;> simp [JsVal.beq]
  | .dec m s, b => by cases b <;> simp [JsVal.beq]
  | .str x, b => by cases b <;> simp [JsVal.beq]
  | .arr xs, b => by
      cases b <;> simp [JsVal.beq]
      exact JsVal.beqList_iff xs _
  | .obj xs, b => by
      cases b <;> simp [JsVal.beq]
      exact JsVal.beqFields_iff xs _
theorem JsVal.beqList_iff : ∀ xs ys : List JsVal, JsVal.beqList xs ys = true ↔ xs = ys
  | [], ys => by cases ys <;> simp [JsVal.beqList]
  | x :: xs, ys => by
      cases ys with
      | nil => simp [JsVal.beqList]
      | cons y ys =>
        simp [JsVal.beqList, JsVal.beq_iff x y, JsVal.beqList_iff xs ys]
theorem JsVal.beqFields_iff :
    ∀ xs ys : List (String × JsVal), JsVal.beqFields xs ys = true ↔ xs = ys
  | [], ys => by cases ys <;> simp [JsVal.beqFields]
  | (k, x) :: xs, ys => by
      cases ys with
      | nil => simp [JsVal.beqFields]
      | cons y ys =>
        obtain ⟨l, y⟩ := y
        simp [JsVal.beqFields, JsVal.beq_iff x y, JsVal.beqFields_iff xs ys, and_assoc]
end

instance : DecidableEq JsVal := fun a b =>
  decidable_of_iff (JsVal.beq a b = true) (JsVal.beq_iff a b)

/-! ## The `Set` of selected identifiers -/

/-- A JavaScript `Set`: its elements in insertion order, none twice. -/
structure JSSet where
  items : List JsVal
  nodup : items.Nodup

namespace JSSet

/-- Result of `new Set()`. -/
def empty : JSSet := ⟨[], List.nodup_nil⟩

/-- Result of `s.has(x)`. -/
def has (s : JSSet) (x : JsVal) : Bool := decide (x ∈ s.items)

/-- Result of `s.size`. -/
def size (s : JSSet) : Nat := s.items.length

/-- Effect of `s.add(x)`: a new element goes to the end, a present one stays. -/
def add (s : JSSet) (x : JsVal) : JSSet :=
  if h : x ∈ s.items then s
  else ⟨s.items ++ [x], List.Nodup.append s.nodup (List.nodup_singleton x)
    (by intro a ha hb; rw [List.mem_singleton] at hb; exact h (hb ▸ ha))⟩

/-- Effect of `s.delete(x)`. -/
def delete (s : JSSet) (x : JsVal) : JSSet :=
  ⟨s.items.erase x, s.nodup.erase x⟩

/-- Result of `new Set(xs)` for an array `xs`: the elements are added in order. -/
def ofList (xs : List JsVal) : JSSet := xs.foldl add empty

/-- Result of `Array.from(s)`. -/
def toArray (s : JSSet) : List JsVal := s.items

/-- The elements as a finite set, forgetting the insertion order. -/
def toFinset (s : JSSet) : Finset JsVal := ⟨s.items, s.nodup⟩

end JSSet

/-! ## `JSON.parse`

The text grammar of ECMA-404, as `JSON.parse` accepts it: the four white-space
characters, the three literal names, numbers, strings with their escapes,
arrays and objects.  The reader works on the list of characters of the text
and carries a recursion budget that `jsonParse` sets above what any text of
that length can use. -/

/-- JSON white space: space, tab, line feed, carriage return. -/
def isWs (c : Char) : Bool := c = ' ' || c = '\t' || c = '\n' || c = '\r'

/-- Drops leading white space. -/
def skipWs : List Char → List Char
  | [] => []
  | c :: cs => if isWs c then skipWs cs else c :: cs

/-- Decimal digit test. -/
def isDigit (c : Char) : Bool := decide (48 ≤ c.toNat) && decide (c.toNat ≤ 57)

/-- Value of a decimal digit. -/
def digitVal (c : Char) : Nat := c.toNat - 48

/-- Splits off the longest prefix of decimal digits. -/
def takeDigits : List Char → List Char × List Char
  | [] => ([], [])
  | c :: cs => if isDigit c then ((c :: (takeDigits cs).1), (takeDigits cs).2) else ([], c :: cs)

/-- Value of a digit string, most significant digit first. -/
def digitsToNat (ds : List Char) : Nat := ds.foldl (fun a c => 10 * a + digitVal c) 0

/-- Value of a hexadecimal digit. -/
def hexVal (c : Char) : Option Nat :=
  if 48 ≤ c.toNat ∧ c.toNat ≤ 57 then some (c.toNat - 48)
  else if 97 ≤ c.toNat ∧ c.toNat ≤ 102 then some (c.toNat - 87)
  else if 65 ≤ c.toNat ∧ c.toNat ≤ 70 then some (c.toNat - 55)
  else none

/-- Value of four hexadecimal digits. -/
def hex4 (a b c d : Char) : Option Nat :=
  match hexVal a, hexVal b, hexVal c, hexVal d with
  | some w, some x, some y, some z => some (((w * 16 + x) * 16 + y) * 16 + z)
  | _, _, _, _ => none

/-- A number with a fraction or exponent part, reduced to an integer when it is
one and to a decimal without trailing zeros otherwise. -/
def normDec : Int → Nat → JsVal
  | m, 0 => .num m
  | m, s + 1 => if m % 10 = 0 then normDec (m / 10) s else .dec m (s + 1)

/-- The integer part of a number: a single zero, or digits not starting with zero. -/
def takeIntPart : List Char → Option (List Char × List Char)
  | [] => none
  | c :: cs =>
    if c = '0' then some (['0'], cs)
    else if isDigit c then some ((c :: (takeDigits cs).1), (takeDigits cs).2)
    else none

/-- The optional fraction part: the digits after the point. -/
def takeFraction : List Char → Option (List Char × List Char)
  | '.' :: cs =>
    if (takeDigits cs).1 = [] then none else some (takeDigits cs)
  | cs => some ([], cs)

/-- The optional exponent part. -/
def takeExponent : List Char → Option (Int × List Char)
  | [] => some (0, [])
  | c :: cs =>
    if c = 'e' ∨ c = 'E' then
      match cs with
      | '-' :: r =>
        if (takeDigits r).1 = [] then none
        else some (- (digitsToNat (takeDigits r).1 : Int), (takeDigits r).2)
      | '+' :: r =>
        if (takeDigits r).1 = [] then none
        else some ((digitsToNat (takeDigits r).1 : Int), (takeDigits r).2)
      | r =>
        if (takeDigits r).1 = [] then none
        else some ((digitsToNat (takeDigits r).1 : Int), (takeDigits r).2)
    else some (0, c :: cs)

/-- A number whose sign has been read. -/
def parseUnsigned (neg : Bool) (cs : List Char) : Option (JsVal × List Char) :=
  match takeIntPart cs with
  | none => none
  | some (ip, cs1) =>
    match takeFraction cs1 with
    | none => none
    | some (fd, cs2) =>
      match takeExponent cs2 with
      | none => none
      | some (e, cs3) =>
        let m : Int := if neg then - (digitsToNat (ip ++ fd) : Int) else digitsToNat (ip ++ fd)
        let e10 : Int := e - fd.length
        if 0 ≤ e10 then some (.num (m * 10 ^ e10.toNat), cs3)
        else some (normDec m (- e10).toNat, cs3)

/-- A JSON number. -/
def parseNumber : List Char → Option (JsVal × List Char)
  | '-' :: cs => parseUnsigned true cs
  | cs => parseUnsigned false cs

/-- The low surrogate given by a `\u` escape at the head of the text, if there
is one. -/
def lowSurrogateAhead : List Char → Option (Nat × List Char)
  | '\\' :: 'u' :: a :: b :: c :: d :: r =>
    match hex4 a b c d with
    | some m => if 56320 ≤ m ∧ m < 57344 then some (m, r) else none
    | none => none
  | _ => none

/-- The characters of a string up to its closing quote; `acc` holds the
characters read so far, last first.  A `\u` escape of a high surrogate followed
by one of a low surrogate is the character the pair encodes; a lone surrogate,
which a character cannot hold, is read as U+FFFD. -/
def parseStringBody : Nat → List Char → List Char → Option (List Char × List Char)
  | 0, _, _ => none
  | _ + 1, [], _ => none
  | fuel + 1, c :: cs, acc =>
    if c = '"' then some (acc.reverse, cs)
    else if c = '\\' then
      match cs with
      | [] => none
      | 'u' :: a :: b :: c1 :: d :: r =>
        match hex4 a b c1 d with
        | none => none
        | some n =>
          if 55296 ≤ n ∧ n < 56320 then
            match lowSurrogateAhead r with
            | some (m, r2) =>
              parseStringBody fuel r2 (Char.ofNat (65536 + (n - 55296) * 1024 + (m - 56320)) :: acc)
            | none => parseStringBody fuel r (Char.ofNat 65533 :: acc)
          else if 56320 ≤ n ∧ n < 57344 then parseStringBody fuel r (Char.ofNat 65533 :: acc)
          else parseStringBody fuel r (Char.ofNat n :: acc)
      | e :: r =>
        if e = '"' then parseStringBody fuel r ('"' :: acc)
        else if e = '\\' then parseStringBody fuel r ('\\' :: acc)
        else if e = '/' then parseStringBody fuel r ('/' :: acc)
        else if e = 'b' then parseStringBody fuel r (Char.ofNat 8 :: acc)
        else if e = 'f' then parseStringBody fuel r (Char.ofNat 12 :: acc)
        else if e = 'n' then parseStringBody fuel r ('\n' :: acc)
        else if e = 'r' then parseStringBody fuel r ('\r' :: acc)
        else if e = 't' then parseStringBody fuel r ('\t' :: acc)
        else none
    else if c.toNat < 32 then none
    else parseStringBody fuel cs (c :: acc)

/-- A string whose opening quote has been read. -/
def parseString (cs : List Char) : Option (String × List Char) :=
  (parseStringBody (cs.length + 1) cs []).map fun r => (String.mk r.1, r.2)

/-- One of the literal names `null`, `true`, `false`. -/
def parseLiteral : List Char → Option (JsVal × List Char)
  | 'n' :: 'u' :: 'l' :: 'l' :: rest => some (.null, rest)
  | 't' :: 'r' :: 'u' :: 'e' :: rest => some (.bool true, rest)
  | 'f' :: 'a' :: 'l' :: 's' :: 'e' :: rest => some (.bool false, rest)
  | _ => none

/-- The text after the character `ch`, when the text starts with it. -/
def expectChar (ch : Char) : List Char → Option (List Char)
  | [] => none
  | c :: cs => if c = ch then some cs else none

mutual
/-- A JSON value at the head of the text, and the text after it. -/
def parseValue : Nat → List Char → Option (JsVal × List Char)
  | 0, _ => none
  | _ + 1, [] => none
  | fuel + 1, c :: rest =>
    if c = '[' then
      match expectChar ']' (skipWs rest) with
      | some rest1 => some (.arr [], rest1)
      | none => (parseElements fuel (skipWs rest)).map fun r => (.arr r.1, r.2)
    else if c = '{' then
      match expectChar '}' (skipWs rest) with
      | some rest1 => some (.obj [], rest1)
      | none => (parseMembers fuel (skipWs rest)).map fun r => (.obj r.1, r.2)
    else if c = '"' then (parseString rest).map fun r => (.str r.1, r.2)
    else if c = 'n' ∨ c = 't' ∨ c = 'f' then parseLiteral (c :: rest)
    else parseNumber (c :: rest)
/-- The elements of an array, up to and including its closing bracket. -/
def parseElements : Nat → List Char → Option (List JsVal × List Char)
  | 0, _ => none
  | fuel + 1, cs =>
    match parseValue fuel cs with
    | none => none
    | some (v, rest) =>
      match skipWs rest with
      | ',' :: rest1 => (parseElements fuel (skipWs rest1)).map fun r => (v :: r.1, r.2)
      | ']' :: rest1 => some ([v], rest1)
      | _ => none
/-- The members of an object, up to and including its closing brace. -/
def parseMembers : Nat → List Char → Option (List (String × JsVal) × List Char)
  | 0, _ => none
  | fuel + 1, cs =>
    match cs with
    | '"' :: rest =>
      match parseString rest with
      | none => none
      | some (k, rest1) =>
        match skipWs rest1 with
        | ':' :: rest2 =>
          match parseValue fuel (skipWs rest2) with
          | none => none
          | some (v, rest3) =>
            match skipWs rest3 with
            | ',' :: rest4 => (parseMembers fuel (skipWs rest4)).map fun r => ((k, v) :: r.1, r.2)
            | '}' :: rest4 => some ([(k, v)], rest4)
            | _ => none
        | _ => none
    | _ => none
end

/-- Result of `JSON.parse(text)`: `none` stands for the `SyntaxError` it throws.
An object keeps its members as written, in text order. -/
def jsonParse (text : String) : Option JsVal :=
  match parseValue (2 * text.length + 2) (skipWs text.toList) with
  | none => none
  | some (v, rest) => if skipWs rest = [] then some v else none

/-! ## `JSON.stringify` -/

/-- Character of a decimal or hexadecimal digit (lower case). -/
def digitChar (n : Nat) : Char := if n < 10 then Char.ofNat (48 + n) else Char.ofNat (87 + n)

/-- Decimal digits of a natural number, most significant first; the first
argument bounds the number of digits. -/
def natDigits : Nat → Nat → List Char
  | 0, _ => []
  | fuel + 1, n => if n < 10 then [digitChar n] else natDigits fuel (n / 10) ++ [digitChar (n % 10)]

/-- Decimal text of a natural number. -/
def natToText (n : Nat) : List Char := natDigits (n + 1) n

/-- Decimal text of an integer. -/
def intToText (n : Int) : List Char :=
  if n < 0 then '-' :: natToText n.natAbs else natToText n.toNat

/-- Decimal text of `mantissa / 10 ^ scale` in positional form. -/
def decToText (m : Int) (scale : Nat) : List Char :=
  let a := m.natAbs
  let frac := natToText (a % 10 ^ scale)
  (if m < 0 then ['-'] else []) ++ natToText (a / 10 ^ scale) ++ ['.'] ++
    List.replicate (scale - frac.length) '0' ++ frac

/-- One character of a string as `JSON.stringify` writes it. -/
def quoteChar (c : Char) : List Char :=
  if c = '"' then ['\\', '"']
  else if c = '\\' then ['\\', '\\']
  else if c = '\n' then ['\\', 'n']
  else if c = '\r' then ['\\', 'r']
  else if c = '\t' then ['\\', 't']
  else if c.toNat = 8 then ['\\', 'b']
  else if c.toNat = 12 then ['\\', 'f']
  else if c.toNat < 32 then ['\\', 'u', '0', '0', digitChar (c.toNat / 16), digitChar (c.toNat % 16)]
  else [c]

/-- A string between quotes, with its escapes. -/
def quoteString (t : String) : List Char :=
  '"' :: (t.toList.flatMap quoteChar ++ ['"'])

mutual
/-- Text of a value, without any white space. -/
def stringifyVal : JsVal → List Char
  | .null => ['n', 'u', 'l', 'l']
  | .bool true => ['t', 'r', 'u', 'e']
  | .bool false => ['f', 'a', 'l', 's', 'e']
  | .num n => intToText n
  | .dec m s => decToText m s
  | .str t => quoteString t
  | .arr xs => '[' :: (stringifyElements xs ++ [']'])
  | .obj kvs => '{' :: (stringifyMembers kvs ++ ['}'])
/-- Elements of an array, separated by commas. -/
def stringifyElements : List JsVal → List Char
  | [] => []
  | [x] => stringifyVal x
  | x :: y :: rest => stringifyVal x ++ ',' :: stringifyElements (y :: rest)
/-- Members of an object, separated by commas. -/
def stringifyMembers : List (String × JsVal) → List Char
  | [] => []
  | [(k, x)] => quoteString k ++ ':' :: stringifyVal x
  | (k, x) :: y :: rest => quoteString k ++ ':' :: stringifyVal x ++ ',' :: stringifyMembers (y :: rest)
end

/-- Result of `JSON.stringify(v)`. -/
def jsonStringify (v : JsVal) : String := String.mk (stringifyVal v)

/-! ## State of the page -/

/-- One record of the list endpoint, as `createUserRow` reads it. -/
structure User where
  user_id : JsVal
  name : String
  email : String
  created_at_display : String
  last_login_display : String
  num_courses : Int
  course_codes : String

/-- A check box of the page. -/
structure Checkbox where
  checked : Bool
  disabled : Bool
  deriving DecidableEq

/-- The elements of the document that the script writes. -/
structure Dom where
  /-- The select-all control of the page, `#selectAllPage`. -/
  selectAllPage : Checkbox
  /-- The `checked` state of the row check boxes `.user-checkbox`, in row order. -/
  userCheckboxes : List Bool
  /-- Number shown in `#filteredUsers`. -/
  filteredUsers : Int
  /-- Number shown in `#selectedCount`. -/
  selectedCount : Nat
  /-- Number shown in `#exportCount`. -/
  exportCount : Nat
  /-- The `disabled` state of `#btnExport`. -/
  btnExportDisabled : Bool
  /-- The `disabled` state of `#btnPrevious`. -/
  btnPreviousDisabled : Bool
  /-- The `disabled` state of `#btnNext`. -/
  btnNextDisabled : Bool
  /-- Page and page count shown in `#pageInfo`. -/
  pageInfo : Int × Int
  /-- Whether `#loading` is displayed. -/
  loadingShown : Bool
  /-- Whether `#loading` holds the error notice instead of the spinner. -/
  loadingError : Bool
  /-- Whether `#tableContainer` is displayed. -/
  tableShown : Bool
  /-- Whether `#paginationContainer` is displayed. -/
  paginationShown : Bool
  deriving DecidableEq

/-- The content of `localStorage`: the item under each key, if any. -/
abbrev Storage := String → Option String

/-- Effect of `localStorage.setItem(key, value)` when it is accepted. -/
def Storage.setItem (store : Storage) (key value : String) : Storage :=
  fun k => if k = key then some value else store k

/-- The key under which the script keeps the selection. -/
def storageKey : String := "ufv_selected_users"

/-- A `localStorage` that holds at most the item of the selection. -/
def slotOnly (stored : Option String) : Storage :=
  fun k => if k = storageKey then stored else none

/-- The module-level variables, `localStorage` and the document. -/
structure State where
  currentPage : Int
  totalPages : Int
  totalUsers : Int
  selectedUserIds : JSSet
  currentUsers : List User
  localStorage : Storage
  dom : Dom

/-- The variables as the script initialises them, over a given `localStorage`
and document. -/
def initialState (store : Storage) (dom : Dom) : State where
  currentPage := 1
  totalPages := 1
  totalUsers := 0
  selectedUserIds := JSSet.empty
  currentUsers := []
  localStorage := store
  dom := dom

/-! ## Statistics and persistence -/

/-- Embeds `updateStats`: the counters and the export button follow the
selection.  (The one-off request that fills `#totalUsers` writes nothing else
and is left out.) -/
def updateStats (s : State) : State :=
  { s with dom := { s.dom with
      filteredUsers := s.totalUsers
      selectedCount := s.selectedUserIds.size
      exportCount := s.selectedUserIds.size
      btnExportDisabled := decide (s.selectedUserIds.size = 0) } }

/-- The text that `saveSelectionToStorage` writes. -/
def selectionText (sel : JSSet) : String := jsonStringify (.arr sel.toArray)

/-- Embeds `saveSelectionToStorage`.  `canStore t` tells whether
`localStorage.setItem` accepts the text `t`; when it throws, the item keeps its
value and the error is only logged. -/
def saveSelectionToStorage (canStore : String → Bool) (s : State) : State :=
  if canStore (selectionText s.selectedUserIds) then
    { s with localStorage :=
        s.localStorage.setItem storageKey (selectionText s.selectedUserIds) }
  else s

/-- An exception raised inside `loadSelectionFromStorage`. -/
inductive JsError where
  | syntaxError
  | typeError
  deriving DecidableEq

/-- Result of `new Set(v)` for a parsed value: null gives the empty set, an
array its elements, a string its characters; anything else is not iterable and
raises a `TypeError`. -/
def newSet : JsVal → Except JsError JSSet
  | .null => .ok JSSet.empty
  | .arr xs => .ok (JSSet.ofList xs)
  | .str t => .ok (JSSet.ofList (t.toList.map fun c => .str (String.singleton c)))
  | _ => .error .typeError

/-- The `try` block of `loadSelectionFromStorage`: the state it leaves and the
exception it ends with, if any.  A missing or empty item is skipped; parsing
may raise; `new Set(ids)` may raise before the assignment; reading
`ids.length` of null raises after it. -/
def loadSelectionTry (s : State) : State × Option JsError :=
  match s.localStorage storageKey with
  | none => (s, none)
  | some stored =>
    if stored = "" then (s, none)
    else
      match jsonParse stored with
      | none => (s, some .syntaxError)
      | some ids =>
        match newSet ids with
        | .error e => (s, some e)
        | .ok set =>
          ({ s with selectedUserIds := set },
            if ids = .null then some .typeError else none)

/-- Embeds `loadSelectionFromStorage`: the `catch` clause logs and returns. -/
def loadSelectionFromStorage (s : State) : State := (loadSelectionTry s).1

/-! ## Selection -/

/-- Embeds `toggleUserSelection`. -/
def toggleUserSelection (canStore : String → Bool) (s : State) (userId : JsVal)
    (selected : Bool) : State :=
  let s1 : State :=
    if selected then { s with selectedUserIds := s.selectedUserIds.add userId }
    else { s with selectedUserIds := s.selectedUserIds.delete userId }
  saveSelectionToStorage canStore (updateStats s1)

/-- Embeds `toggleSelectAllPage`: every record of the page is toggled in order,
then every row check box is set. -/
def toggleSelectAllPage (canStore : String → Bool) (s : State) (selected : Bool) : State :=
  let s1 := s.currentUsers.foldl
    (fun st user => toggleUserSelection canStore st user.user_id selected) s
  { s1 with dom := { s1.dom with userCheckboxes := s1.dom.userCheckboxes.map fun _ => selected } }

/-- Embeds `updateSelectAllCheckbox`. -/
def updateSelectAllCheckbox (s : State) : State :=
  if s.currentUsers.length = 0 then
    { s with dom := { s.dom with selectAllPage := { checked := false, disabled := true } } }
  else
    { s with dom := { s.dom with selectAllPage :=
        { checked := s.currentUsers.all fun user => s.selectedUserIds.has user.user_id
          disabled := false } } }

/-! ## Rendering and paging -/

/-- Embeds `renderUsers` with `createUserRow`: one row per record, its check
box checked when the record is selected; then the select-all control is
recomputed. -/
def renderUsers (s : State) (users : List User) : State :=
  updateSelectAllCheckbox
    { s with dom := { s.dom with
        userCheckboxes := users.map fun user => s.selectedUserIds.has user.user_id } }

/-- The `pagination` object of a response. -/
structure Pagination where
  page : Int
  total_pages : Int
  total : Int

/-- Embeds `updatePagination`. -/
def updatePagination (s : State) (pagination : Pagination) : State :=
  { s with dom := { s.dom with
      pageInfo := (pagination.page, pagination.total_pages)
      btnPreviousDisabled := decide (pagination.page = 1)
      btnNextDisabled := decide (pagination.page = pagination.total_pages) } }

/-- The body of a response of the list endpoint. -/
structure UsersData where
  users : List User
  pagination : Pagination

/-- The ways the `try` block of `loadUsers` fails before it assigns anything:
`fetch` rejects, the body is not JSON, or the body has no `pagination` object so
that reading `data.pagination.page` raises. -/
inductive FetchFailure where
  | transport
  | unparseableBody
  | noPagination
  deriving DecidableEq

/-- What `await fetch(url)` and `await response.json()` deliver. -/
inductive FetchResult where
  | failed (f : FetchFailure)
  | loaded (data : UsersData)

/-- The request of `loadUsers`. -/
structure UsersRequest where
  page : Int
  per_page : Nat
  courses : Option String
  deriving DecidableEq

/-- The first part of `loadUsers(page)`, up to `await fetch(url)`: the loading
indicator replaces the table and the request is built from the page and the
courses chosen in the filter (`none` while the filter widget does not exist).
The `courses` field holds the parameter before URL encoding; it is absent when
no course is chosen. -/
def loadUsersStart (s : State) (page : Int) (choices : Option (List String)) :
    State × UsersRequest :=
  let coursesParam := ",".intercalate (choices.getD [])
  ({ s with dom := { s.dom with
        loadingShown := true, tableShown := false, paginationShown := false } },
   { page := page, per_page := 50
     courses := if coursesParam = "" then none else some coursesParam })

/-- The second part of `loadUsers(page)`, run when the response is delivered. -/
def loadUsersResume (s : State) (r : FetchResult) : State :=
  match r with
  | .failed _ => { s with dom := { s.dom with loadingError := true } }
  | .loaded data =>
    let s1 : State := { s with
      currentPage := data.pagination.page
      totalPages := data.pagination.total_pages
      totalUsers := data.pagination.total
      currentUsers := data.users }
    let s2 := updateStats (updatePagination (renderUsers s1 data.users) data.pagination)
    { s2 with dom := { s2.dom with
        loadingShown := false, tableShown := true, paginationShown := true } }

/-- A call of `loadUsers(page)` whose response arrives before any other event. -/
def loadUsers (s : State) (page : Int) (choices : Option (List String)) (r : FetchResult) :
    State :=
  loadUsersResume (loadUsersStart s page choices).1 r

/-- The click listener of `#btnPrevious`, with the response of its request. -/
def clickPrevious (s : State) (choices : Option (List String)) (r : FetchResult) : State :=
  if s.currentPage > 1 then loadUsers s (s.currentPage - 1) choices r else s

/-- The click listener of `#btnNext`, with the response of its request. -/
def clickNext (s : State) (choices : Option (List String)) (r : FetchResult) : State :=
  if s.currentPage < s.totalPages then loadUsers s (s.currentPage + 1) choices r else s

/-- The change listener of the course filter, with the response of its request:
the page is reset to 1 before the users are loaded. -/
def courseFilterChanged (s : State) (choices : Option (List String)) (r : FetchResult) :
    State :=
  loadUsers { s with currentPage := 1 } 1 choices r

/-! ## Export -/

/-- What the request of `exportSelected` delivers: `fetch` rejects, the status
is not a success, the body cannot be read, or the file arrives. -/
inductive ExportResponse where
  | transport
  | httpError
  | bodyError
  | file
  deriving DecidableEq

/-- What `exportSelected` does to the world outside the state. -/
inductive Effect where
  | alert (msg : String)
  | confirm (msg : String)
  | post (url : String) (body : String)
  | download (fileName : String)
  deriving DecidableEq

/-- The body of the export request. -/
def exportBody (sel : JSSet) : String :=
  jsonStringify (.obj [("user_ids", .arr sel.toArray)])

/-- Embeds `exportSelected`.  `confirmed` is the answer to the confirmation
dialog, `resp` what the request delivers and `now` the clock reading that names
the file; each is used only if the function gets that far.  The result is the
state the function leaves and what it did, in order. -/
def exportSelected (s : State) (confirmed : Bool) (resp : ExportResponse) (now : Nat) :
    State × List Effect :=
  let count := String.mk (natToText s.selectedUserIds.size)
  if s.selectedUserIds.size = 0 then
    (s, [.alert "No hay usuarios seleccionados para exportar"])
  else
    let ask := Effect.confirm ("¿Exportar " ++ count ++ " usuarios seleccionados?\n\n" ++
      "Se generará un archivo CSV con los datos de estos usuarios.")
    if confirmed then
      let request := Effect.post "/api/backup" (exportBody s.selectedUserIds)
      match resp with
      | .file =>
        (s, [ask, request,
          .download ("backup_usuarios_ufv_" ++ String.mk (natToText now) ++ ".csv"),
          .alert ("✅ Exportación completada: " ++ count ++ " usuarios")])
      | _ => (s, [ask, request, .alert "Error al exportar usuarios. Verifica la consola."])
    else (s, [ask])

/-- Whether an effect is a request to the server. -/
def Effect.isRequest : Effect → Bool
  | .post _ _ => true
  | _ => false

/-! ## Sequences of operations used in the statements -/

/-- A finite sequence of `toggleUserSelection(id, selected)` calls. -/
def applyToggles (canStore : String → Bool) (s : State) (calls : List (JsVal × Bool)) : State :=
  calls.foldl (fun st call => toggleUserSelection canStore st call.1 call.2) s

/-- Reference semantics of a sequence of toggles, following the words of the
specification: plain set insert for `selected = true`, plain set delete for
`selected = false`. -/
def referenceToggles (init : Finset JsVal) (calls : List (JsVal × Bool)) : Finset JsVal :=
  calls.foldl (fun r call => if call.2 then insert call.1 r else r.erase call.1) init

/-- The `selected` flag of the last call for `x` in a sequence, if there is one. -/
def lastToggle (x : JsVal) (calls : List (JsVal × Bool)) : Option Bool :=
  calls.foldl (fun r call => if call.1 = x then some call.2 else r) none

/-- The identifiers of the records of a page. -/
def pageIds (users : List User) : List JsVal := users.map fun user => user.user_id

/-- The interleaving of two page loads in which `loadUsers(2)` is called, then
`loadUsers(3)` before any response, and the response for page 3 is delivered
before the response for page 2. -/
def staleInterleaving (s : State) (choices : Option (List String))
    (page2 page3 : FetchResult) : State :=
  let s1 := (loadUsersStart s 2 choices).1
  let s2 := (loadUsersStart s1 3 choices).1
  let s3 := loadUsersResume s2 page3
  loadUsersResume s3 page2

/-- A record with a numeric identifier and nothing else of interest. -/
def plainUser (id : Int) : User where
  user_id := .num id
  name := ""
  email := ""
  created_at_display := ""
  last_login_display := ""
  num_courses := 0
  course_codes := ""

/-- A document before any script has run: nothing checked, nothing disabled,
only the loading indicator shown. -/
def blankDom : Dom where
  selectAllPage := { checked := false, disabled := false }
  userCheckboxes := []
  filteredUsers := 0
  selectedCount := 0
  exportCount := 0
  btnExportDisabled := true
  btnPreviousDisabled := false
  btnNextDisabled := false
  pageInfo := (1, 1)
  loadingShown := true
  loadingError := false
  tableShown := false
  paginationShown := false

/-- A storage that accepts every write. -/
def alwaysStore : String → Bool := fun _ => true

/-! ## Sample states, predicates and helper functions of the proofs -/

/-- The loop of `toggleSelectAllPage` over the records of a page. -/
def toggleEach (canStore : String → Bool) (selected : Bool) (s : State) (users : List User) :
    State :=
  users.foldl (fun st user => toggleUserSelection canStore st user.user_id selected) s

/-- A state whose selection holds identifier 1 of the current page and
identifier 9 of another page; the page shows the records 1 and 2. -/
def partlySelectedPage : State :=
  { initialState (slotOnly none) blankDom with
    selectedUserIds := JSSet.ofList [.num 1, .num 9]
    currentUsers := [plainUser 1, plainUser 2] }

/-- A state whose selection holds only identifier 9 of another page; the page
shows the records 1 and 2. -/
def otherPageSelected : State :=
  { initialState (slotOnly none) blankDom with
    selectedUserIds := JSSet.ofList [.num 9]
    currentUsers := [plainUser 1, plainUser 2] }

/-- Whether `new Set` accepts a parsed value as a non-null iterable: it is an
array or a string. -/
def JsVal.isArrayOrString : JsVal → Bool
  | .arr _ => true
  | .str _ => true
  | _ => false

/-- The fields of a state that a page load assigns. -/
def pagingFields (s : State) : Int × Int × Int × List JsVal :=
  (s.currentPage, s.totalPages, s.totalUsers, pageIds s.currentUsers)

/-- The same fields as a response defines them. -/
def responseFields (data : UsersData) : Int × Int × Int × List JsVal :=
  (data.pagination.page, data.pagination.total_pages, data.pagination.total, pageIds data.users)

/-- The response of the server for page 2 of a list of five records, two per
page. -/
def secondPage : UsersData where
  users := [plainUser 3, plainUser 4]
  pagination := { page := 2, total_pages := 3, total := 5 }

/-- The response of the server for page 3 of the same list. -/
def thirdPage : UsersData where
  users := [plainUser 5]
  pagination := { page := 3, total_pages := 3, total := 5 }

/-- The state after page 3 of the list of five records has been loaded. -/
def onThirdPage : State :=
  loadUsers (initialState (slotOnly none) blankDom) 3 none (.loaded thirdPage)

/-- The condition that the select-all control is meant to show: the page is
non-empty and every identifier of it is selected. -/
def pageFullySelected (s : State) : Bool :=
  !s.currentUsers.isEmpty && s.currentUsers.all fun user => s.selectedUserIds.has user.user_id

/-- The response of the server for a list of one record. -/
def singleRecordPage : UsersData where
  users := [plainUser 1]
  pagination := { page := 1, total_pages := 1, total := 1 }

/-- The state after the page with the single record 1 has been loaded and
rendered, nothing being selected. -/
def onSingleRecordPage : State :=
  loadUsers (initialState (slotOnly none) blankDom) 1 none (.loaded singleRecordPage)

/-- The state in which the identifiers 7 and 42 are selected. -/
def twoSelected : State :=
  { initialState (slotOnly none) blankDom with selectedUserIds := JSSet.ofList [.num 7, .num 42] }

/-- The text ends here or goes on with a comma or a closing bracket. -/
def AtDelimiter (rest : List Char) : Prop :=
  ∀ c cs, rest = c :: cs → c = ',' ∨ c = ']'

/-- The first character of a number: a minus sign or a digit. -/
def NumberStart (c : Char) : Prop := c = '-' ∨ isDigit c = true

/-- The first character of the text of an integer or a string. -/
def ValueStart (c : Char) : Prop := NumberStart c ∨ c = '"'

/-- Whether a value is an integer or a string, the two forms of an identifier. -/
def JsVal.isIntOrString : JsVal → Bool
  | .num _ => true
  | .str _ => true
  | _ => false

/-- What a successful read with some recursion budget guarantees: text was
consumed, and any budget of at least twice the number of characters consumed
gives the same result. -/
def FuelBound {α : Type} (parse : Nat → List Char → Option (α × List Char)) (fuel : Nat) : Prop :=
  ∀ cs v rest, parse fuel cs = some (v, rest) →
    rest.length < cs.length ∧
      ∀ g, 2 * (cs.length - rest.length) ≤ g → parse g cs = some (v, rest)

/-! ## Checks of the JSON reader and writer on sample texts -/

example : parseNumber "12,".toList = some (.num 12, [',']) := by decide
example : jsonParse "[7, 42]" = some (.arr [.num 7, .num 42]) := by decide
example : jsonParse " \"ab\\n\\u00e9\" " = some (.str "ab\né") := by decide
example : jsonParse "\x7b\"a\": [1.50, -2e2, null, true], \"b\": \x7b\x7d\x7d" =
    some (.obj [("a", .arr [.dec 15 1, .num (-200), .null, .bool true]), ("b", .obj [])]) := by
  decide
example : jsonParse "[1,]" = none := by decide
example : jsonParse "01" = none := by decide
example : jsonParse "" = none := by decide
example : jsonParse "[[[]],[]]" = some (.arr [.arr [.arr []], .arr []]) := by decide

example : jsonStringify (.arr [.num 7, .num (-42), .str "a\"b", .dec (-5) 2]) =
    "[7,-42,\"a\\\"b\",-0.05]" := by decide
example : jsonParse (jsonStringify (.arr [.num 7, .num (-42), .str "a\"b\n", .dec (-5) 2])) =
    some (.arr [.num 7, .num (-42), .str "a\"b\n", .dec (-5) 2]) := by decide

/-! ## Facts about the set operations -/

theorem JSSet.ext_items {a b : JSSet} (h : a.items = b.items) : a = b := by
  cases a; cases b; cases h; rfl

theorem JSSet.has_iff (s : JSSet) (x : JsVal) : s.has x = true ↔ x ∈ s.items := by
  simp [JSSet.has]

theorem JSSet.mem_toFinset (s : JSSet) (x : JsVal) : x ∈ s.toFinset ↔ x ∈ s.items :=
  Iff.rfl

theorem JSSet.card_toFinset (s : JSSet) : s.toFinset.card = s.size := rfl

theorem JSSet.mem_add (s : JSSet) (x y : JsVal) :
    y ∈ (s.add x).items ↔ y = x ∨ y ∈ s.items := by
  unfold JSSet.add
  split
  · constructor
    · exact Or.inr
    · rintro (h | h)
      · subst h; assumption
      · exact h
  · simp [or_comm]

theorem JSSet.mem_delete (s : JSSet) (x y : JsVal) :
    y ∈ (s.delete x).items ↔ y ≠ x ∧ y ∈ s.items := by
  simp [JSSet.delete, s.nodup.mem_erase_iff]

theorem JSSet.toFinset_add (s : JSSet) (x : JsVal) :
    (s.add x).toFinset = insert x s.toFinset := by
  ext y
  simp [JSSet.mem_toFinset, JSSet.mem_add]

theorem JSSet.toFinset_delete (s : JSSet) (x : JsVal) :
    (s.delete x).toFinset = s.toFinset.erase x := by
  ext y
  simp [JSSet.mem_toFinset, JSSet.mem_delete]

/-! ## Frame facts of the operations -/

@[simp] theorem updateStats_selected (s : State) :
    (updateStats s).selectedUserIds = s.selectedUserIds := rfl

@[simp] theorem updateStats_users (s : State) :
    (updateStats s).currentUsers = s.currentUsers := rfl

@[simp] theorem save_selected (c : String → Bool) (s : State) :
    (saveSelectionToStorage c s).selectedUserIds = s.selectedUserIds := by
  unfold saveSelectionToStorage; split <;> rfl

@[simp] theorem save_users (c : String → Bool) (s : State) :
    (saveSelectionToStorage c s).currentUsers = s.currentUsers := by
  unfold saveSelectionToStorage; split <;> rfl

@[simp] theorem save_dom (c : String → Bool) (s : State) :
    (saveSelectionToStorage c s).dom = s.dom := by
  unfold saveSelectionToStorage; split <;> rfl

theorem toggle_selected (c : String → Bool) (s : State) (x : JsVal) (b : Bool) :
    (toggleUserSelection c s x b).selectedUserIds =
      if b then s.selectedUserIds.add x else s.selectedUserIds.delete x := by
  cases b <;> simp [toggleUserSelection]

@[simp] theorem toggle_users (c : String → Bool) (s : State) (x : JsVal) (b : Bool) :
    (toggleUserSelection c s x b).currentUsers = s.currentUsers := by
  cases b <;> simp [toggleUserSelection]

theorem toggle_selectAll (c : String → Bool) (s : State) (x : JsVal) (b : Bool) :
    (toggleUserSelection c s x b).dom.selectAllPage = s.dom.selectAllPage := by
  cases b <;> simp [toggleUserSelection, updateStats]

theorem mem_toggle (c : String → Bool) (s : State) (x y : JsVal) (b : Bool) :
    y ∈ (toggleUserSelection c s x b).selectedUserIds.items ↔
      (y = x ∧ b = true) ∨ (y ≠ x ∧ y ∈ s.selectedUserIds.items) := by
  rw [toggle_selected]
  cases b
  · simp [JSSet.mem_delete]
  · simp only [if_true, JSSet.mem_add, and_true]
    by_cases h : y = x <;> simp [h]

/-! ## C1: a sequence of toggles is a fold of set insert and delete -/

theorem applyToggles_toFinset (c : String → Bool) (calls : List (JsVal × Bool)) :
    ∀ s : State, (applyToggles c s calls).selectedUserIds.toFinset =
      referenceToggles s.selectedUserIds.toFinset calls := by
  induction calls with
  | nil => intro s; rfl
  | cons call rest ih =>
    intro s
    have h := ih (toggleUserSelection c s call.1 call.2)
    simp only [applyToggles, referenceToggles, List.foldl_cons] at h ⊢
    rw [h, toggle_selected]
    cases call.2 <;> simp [JSSet.toFinset_add, JSSet.toFinset_delete]

theorem mem_applyToggles (c : String → Bool) (x : JsVal) (calls : List (JsVal × Bool)) :
    ∀ s : State, x ∈ (applyToggles c s calls).selectedUserIds.items ↔
      lastToggle x calls = some true ∨
        (lastToggle x calls = none ∧ x ∈ s.selectedUserIds.items) := by
  induction calls using List.reverseRecOn with
  | nil => intro s; simp [applyToggles, lastToggle]
  | append_singleton rest call ih =>
    intro s
    have h := ih s
    simp only [applyToggles, lastToggle, List.foldl_append, List.foldl_cons,
      List.foldl_nil] at h ⊢
    rw [mem_toggle, h]
    by_cases hx : call.1 = x
    · simp [hx]
    · have hx2 : ¬ x = call.1 := fun e => hx e.symm
      simp [hx, hx2]

/-- C1: for every initial selection and every finite sequence of
`toggleUserSelection(id, selected)` calls, the resulting `selectedUserIds` is
the set obtained by folding the same sequence with plain insert and delete; an
identifier is a member afterwards exactly when its last toggle had
`selected = true`, or it had no toggle and was a member initially; and `size`
is the number of these identifiers. -/
theorem toggles_match_reference_set (canStore : String → Bool) (s : State)
    (calls : List (JsVal × Bool)) :
    (applyToggles canStore s calls).selectedUserIds.toFinset =
        referenceToggles s.selectedUserIds.toFinset calls ∧
      (∀ x : JsVal, (applyToggles canStore s calls).selectedUserIds.has x = true ↔
        lastToggle x calls = some true ∨
          (lastToggle x calls = none ∧ s.selectedUserIds.has x = true)) ∧
      (∀ x : JsVal, x ∈ referenceToggles s.selectedUserIds.toFinset calls ↔
        lastToggle x calls = some true ∨
          (lastToggle x calls = none ∧ s.selectedUserIds.has x = true)) ∧
      (applyToggles canStore s calls).selectedUserIds.size =
        (referenceToggles s.selectedUserIds.toFinset calls).card := by
  refine ⟨applyToggles_toFinset canStore calls s, ?_, ?_, ?_⟩
  · intro x
    rw [JSSet.has_iff, JSSet.has_iff]
    exact mem_applyToggles canStore x calls s
  · intro x
    rw [← applyToggles_toFinset canStore calls s, JSSet.mem_toFinset, JSSet.has_iff]
    exact mem_applyToggles canStore x calls s
  · rw [← applyToggles_toFinset canStore calls s, JSSet.card_toFinset]

/-! ## C2, C3: select-all of a page -/

theorem toggleSelectAllPage_selected (c : String → Bool) (s : State) (b : Bool) :
    (toggleSelectAllPage c s b).selectedUserIds =
      (toggleEach c b s s.currentUsers).selectedUserIds := rfl

theorem toggleEach_users (c : String → Bool) (b : Bool) (users : List User) :
    ∀ s : State, (toggleEach c b s users).currentUsers = s.currentUsers := by
  induction users with
  | nil => intro s; rfl
  | cons u rest ih =>
    intro s
    simp only [toggleEach, List.foldl_cons] at ih ⊢
    rw [ih, toggle_users]

theorem toggleSelectAllPage_users (c : String → Bool) (s : State) (b : Bool) :
    (toggleSelectAllPage c s b).currentUsers = s.currentUsers :=
  toggleEach_users c b s.currentUsers s

theorem mem_toggleEach (c : String → Bool) (b : Bool) (y : JsVal) (users : List User) :
    ∀ s : State, y ∈ (toggleEach c b s users).selectedUserIds.items ↔
      (y ∈ pageIds users ∧ b = true) ∨ (y ∉ pageIds users ∧ y ∈ s.selectedUserIds.items) := by
  induction users with
  | nil => intro s; simp [toggleEach, pageIds]
  | cons u rest ih =>
    intro s
    have h := ih (toggleUserSelection c s u.user_id b)
    simp only [toggleEach, List.foldl_cons, pageIds, List.map_cons, List.mem_cons] at h ⊢
    rw [h, mem_toggle]
    tauto

theorem toggleEach_false_items (c : String → Bool) (users : List User) :
    ∀ s : State, (toggleEach c false s users).selectedUserIds.items =
      s.selectedUserIds.items.filter fun y => decide (y ∉ pageIds users) := by
  induction users with
  | nil => intro s; simp [toggleEach, pageIds]
  | cons u rest ih =>
    intro s
    have h := ih (toggleUserSelection c s u.user_id false)
    simp only [toggleEach, List.foldl_cons] at h ⊢
    rw [h, toggle_selected]
    simp only [Bool.false_eq_true, if_false, JSSet.delete, pageIds, List.map_cons,
      List.mem_cons, not_or]
    rw [s.selectedUserIds.nodup.erase_eq_filter, List.filter_filter]
    apply List.filter_congr
    intro y _
    by_cases hy : y = u.user_id <;> simp [hy]

theorem toggleEach_true_items (c : String → Bool) (users : List User) :
    ∀ s : State, ∃ added : List JsVal,
      (toggleEach c true s users).selectedUserIds.items = s.selectedUserIds.items ++ added ∧
        ∀ y ∈ added, y ∈ pageIds users := by
  induction users with
  | nil => intro s; exact ⟨[], by simp [toggleEach], by simp⟩
  | cons u rest ih =>
    intro s
    obtain ⟨added, h1, h2⟩ := ih (toggleUserSelection c s u.user_id true)
    simp only [toggleEach, List.foldl_cons] at h1 ⊢
    rw [h1, toggle_selected]
    simp only [if_true, JSSet.add]
    split
    · exact ⟨added, rfl, fun y hy => by
        simp only [pageIds, List.map_cons, List.mem_cons]; exact Or.inr (h2 y hy)⟩
    · refine ⟨u.user_id :: added, by simp, fun y hy => ?_⟩
      simp only [pageIds, List.map_cons, List.mem_cons] at hy ⊢
      rcases hy with hy | hy
      · exact Or.inl hy
      · exact Or.inr (h2 y hy)

/-- C2, as stated, fails: on a page whose record 1 was already selected,
select-all followed by deselect-all ends with only identifier 9 selected, not
with the selection 1, 9 it started from. -/
theorem select_all_round_trip_fails :
    partlySelectedPage.selectedUserIds.items = [.num 1, .num 9] ∧
      (toggleSelectAllPage alwaysStore
          (toggleSelectAllPage alwaysStore partlySelectedPage true) false).selectedUserIds.items
        = [.num 9] ∧
      (toggleSelectAllPage alwaysStore
          (toggleSelectAllPage alwaysStore partlySelectedPage true) false).selectedUserIds
        ≠ partlySelectedPage.selectedUserIds := by
  refine ⟨by decide, by decide, fun h => ?_⟩
  have h2 := congrArg JSSet.items h
  revert h2
  decide

/-- C2, amended: `toggleSelectAllPage(true)` followed by
`toggleSelectAllPage(false)` on the same page leaves exactly the identifiers of
the initial selection that are not on the page, so selections of other pages
are kept; and it leaves `selectedUserIds` exactly as it was when no record of
the page was selected before. -/
theorem select_all_then_deselect_all (canStore : String → Bool) (s : State) :
    (∀ x : JsVal,
      (toggleSelectAllPage canStore (toggleSelectAllPage canStore s true) false).selectedUserIds.has x
          = true ↔
        s.selectedUserIds.has x = true ∧ x ∉ pageIds s.currentUsers) ∧
      ((∀ user ∈ s.currentUsers, s.selectedUserIds.has user.user_id = false) →
        (toggleSelectAllPage canStore (toggleSelectAllPage canStore s true) false).selectedUserIds
          = s.selectedUserIds) := by
  constructor
  · intro x
    rw [JSSet.has_iff, JSSet.has_iff, toggleSelectAllPage_selected, toggleSelectAllPage_users,
      mem_toggleEach, toggleSelectAllPage_selected, mem_toggleEach]
    by_cases hx : x ∈ pageIds s.currentUsers <;> simp [hx]
  · intro hdisj
    apply JSSet.ext_items
    rw [toggleSelectAllPage_selected, toggleSelectAllPage_users, toggleEach_false_items,
      toggleSelectAllPage_selected]
    obtain ⟨added, h1, h2⟩ := toggleEach_true_items canStore s.currentUsers s
    rw [h1, List.filter_append]
    have hkeep : s.selectedUserIds.items.filter
        (fun y => decide (y ∉ pageIds s.currentUsers)) = s.selectedUserIds.items := by
      rw [List.filter_eq_self]
      intro y hy
      simp only [decide_eq_true_eq, pageIds, List.mem_map, not_exists, not_and]
      intro user hu he
      have := hdisj user hu
      rw [he] at this
      simp [JSSet.has] at this
      exact this hy
    have hdrop : added.filter (fun y => decide (y ∉ pageIds s.currentUsers)) = [] := by
      rw [List.filter_eq_nil_iff]
      intro y hy
      simp [h2 y hy]
    rw [hkeep, hdrop, List.append_nil]

/-- Witness for C2: on the page 1, 2 with only identifier 9 selected, no
record of the page is selected and the round trip gives back the selection. -/
theorem select_all_then_deselect_all_witness :
    (∀ user ∈ otherPageSelected.currentUsers,
        otherPageSelected.selectedUserIds.has user.user_id = false) ∧
      (toggleSelectAllPage alwaysStore (toggleSelectAllPage alwaysStore otherPageSelected true)
        false).selectedUserIds = otherPageSelected.selectedUserIds :=
  ⟨by decide, (select_all_then_deselect_all alwaysStore otherPageSelected).2 (by decide)⟩

/-- C3: `toggleSelectAllPage` is page-scoped.  An identifier that is not the
`user_id` of a record of the page is a member afterwards exactly when it was
before, and every identifier of the page is a member afterwards exactly when
the flag is true. -/
theorem select_all_is_page_scoped (canStore : String → Bool) (s : State) (b : Bool) :
    (∀ x : JsVal, x ∉ pageIds s.currentUsers →
      ((toggleSelectAllPage canStore s b).selectedUserIds.has x = true ↔
        s.selectedUserIds.has x = true)) ∧
      (∀ user ∈ s.currentUsers,
        ((toggleSelectAllPage canStore s b).selectedUserIds.has user.user_id = true ↔
          b = true)) := by
  constructor
  · intro x hx
    rw [JSSet.has_iff, JSSet.has_iff, toggleSelectAllPage_selected, mem_toggleEach]
    simp [hx]
  · intro user hu
    have hm : user.user_id ∈ pageIds s.currentUsers := List.mem_map_of_mem _ hu
    rw [JSSet.has_iff, toggleSelectAllPage_selected, mem_toggleEach]
    simp [hm]

/-- Witness for C3: deselecting the page 1, 2 keeps identifier 9 of another
page and removes identifier 1. -/
theorem select_all_is_page_scoped_witness :
    ((toggleSelectAllPage alwaysStore partlySelectedPage false).selectedUserIds.has (.num 9) = true ↔
        partlySelectedPage.selectedUserIds.has (.num 9) = true) ∧
      ((toggleSelectAllPage alwaysStore partlySelectedPage false).selectedUserIds.has
          (plainUser 1).user_id = true ↔ false = true) :=
  ⟨(select_all_is_page_scoped alwaysStore partlySelectedPage false).1 (.num 9) (by decide),
   (select_all_is_page_scoped alwaysStore partlySelectedPage false).2 (plainUser 1)
     (by simp [partlySelectedPage])⟩

/-! ## C4: the select-all control -/

/-- C4: `updateSelectAllCheckbox` checks the select-all control exactly when
the page is non-empty and the `user_id` of every record of the page is
selected; it disables the control exactly when the page is empty, and then the
control is unchecked. -/
theorem select_all_checkbox_state (s : State) :
    ((updateSelectAllCheckbox s).dom.selectAllPage.checked = true ↔
        s.currentUsers ≠ [] ∧
          ∀ user ∈ s.currentUsers, s.selectedUserIds.has user.user_id = true) ∧
      ((updateSelectAllCheckbox s).dom.selectAllPage.disabled = true ↔ s.currentUsers = []) ∧
      (s.currentUsers = [] → (updateSelectAllCheckbox s).dom.selectAllPage.checked = false) := by
  unfold updateSelectAllCheckbox
  by_cases h : s.currentUsers = []
  · simp [h]
  · have hl : ¬ s.currentUsers.length = 0 := fun e => h (List.length_eq_zero.mp e)
    simp [h, hl, List.all_eq_true]

/-- Witness for C4: on the page 1, 2 with the selection 1, 9 the control is
enabled and unchecked; on an empty page it is unchecked. -/
theorem select_all_checkbox_state_witness :
    (updateSelectAllCheckbox partlySelectedPage).dom.selectAllPage =
        { checked := false, disabled := false } ∧
      (updateSelectAllCheckbox (initialState (slotOnly none) blankDom)).dom.selectAllPage.checked = false :=
  ⟨by decide, (select_all_checkbox_state (initialState (slotOnly none) blankDom)).2.2 rfl⟩

/-! ## C6: the storage slot at start-up -/

/-- C6, as stated, fails: a slot holding the JSON string "ab" is parseable and
is not a sequence of identifiers, yet start-up ends with a selection of two
members, the one-character strings "a" and "b". -/
theorem malformed_string_slot_is_loaded :
    jsonParse "\"ab\"" = some (.str "ab") ∧
      (loadSelectionFromStorage (initialState (slotOnly (some "\"ab\"")) blankDom)).selectedUserIds.items
        = [.str "a", .str "b"] ∧
      (loadSelectionFromStorage (initialState (slotOnly (some "\"ab\"")) blankDom)).selectedUserIds
        ≠ JSSet.empty := by
  refine ⟨by decide, by decide, fun h => ?_⟩
  have h2 := congrArg JSSet.items h
  revert h2
  decide

/-- C6, amended: when the slot at start-up is absent, empty, not parseable, or
parses to a JSON number, boolean, object or null (anything but an array or a
string), `loadSelectionFromStorage` returns and leaves `selectedUserIds`
empty. -/
theorem malformed_slot_gives_empty_selection (store : Storage) (dom : Dom)
    (h : ∀ text v, store storageKey = some text → jsonParse text = some v →
      v.isArrayOrString = false) :
    (loadSelectionFromStorage (initialState store dom)).selectedUserIds = JSSet.empty := by
  unfold loadSelectionFromStorage loadSelectionTry
  simp only [initialState]
  cases hs : store storageKey with
  | none => rfl
  | some text =>
    simp only []
    split
    · rfl
    · cases hp : jsonParse text with
      | none => rfl
      | some v =>
        have hv := h text v hs hp
        cases v <;> simp_all [JsVal.isArrayOrString, newSet]

/-- Witness for C6: a slot that holds the text of an object, which parses and
is neither an array nor a string, leaves the selection empty. -/
theorem malformed_slot_gives_empty_selection_witness :
    (jsonParse "\x7b\"ids\": [7, 42]\x7d" =
        some (.obj [("ids", .arr [.num 7, .num 42])])) ∧
      (loadSelectionFromStorage
        (initialState (slotOnly (some "\x7b\"ids\": [7, 42]\x7d")) blankDom)).selectedUserIds = JSSet.empty :=
  ⟨by decide,
   malformed_slot_gives_empty_selection (slotOnly (some "\x7b\"ids\": [7, 42]\x7d")) blankDom (by
    intro text v ht hv
    have ht2 : some "\x7b\"ids\": [7, 42]\x7d" = some text := ht
    cases ht2
    have hp : jsonParse "\x7b\"ids\": [7, 42]\x7d" =
        some (.obj [("ids", .arr [.num 7, .num 42])]) := by decide
    rw [hp] at hv
    cases hv
    rfl)⟩

/-! ## C7: two page loads whose responses arrive out of order -/

theorem updateSelectAllCheckbox_frame (s : State) :
    (updateSelectAllCheckbox s).currentPage = s.currentPage ∧
      (updateSelectAllCheckbox s).totalPages = s.totalPages ∧
      (updateSelectAllCheckbox s).totalUsers = s.totalUsers ∧
      (updateSelectAllCheckbox s).currentUsers = s.currentUsers ∧
      (updateSelectAllCheckbox s).selectedUserIds = s.selectedUserIds ∧
      (updateSelectAllCheckbox s).localStorage = s.localStorage := by
  unfold updateSelectAllCheckbox
  split <;> exact ⟨rfl, rfl, rfl, rfl, rfl, rfl⟩

theorem loadUsersResume_loaded (s : State) (data : UsersData) :
    (loadUsersResume s (.loaded data)).currentPage = data.pagination.page ∧
      (loadUsersResume s (.loaded data)).totalPages = data.pagination.total_pages ∧
      (loadUsersResume s (.loaded data)).totalUsers = data.pagination.total ∧
      (loadUsersResume s (.loaded data)).currentUsers = data.users ∧
      (loadUsersResume s (.loaded data)).selectedUserIds = s.selectedUserIds ∧
      (loadUsersResume s (.loaded data)).localStorage = s.localStorage := by
  simp only [loadUsersResume, updateStats, updatePagination, renderUsers]
  obtain ⟨h1, h2, h3, h4, h5, h6⟩ := updateSelectAllCheckbox_frame
    { s with
      currentPage := data.pagination.page
      totalPages := data.pagination.total_pages
      totalUsers := data.pagination.total
      currentUsers := data.users
      dom := { s.dom with
        userCheckboxes := data.users.map fun user => s.selectedUserIds.has user.user_id } }
  exact ⟨h1, h2, h3, h4, h5, h6⟩

/-- C7, as stated, fails: when the response for page 2 is applied after the
response for page 3, the state ends as the page-2 response defines it, and not
as the page-3 response does. -/
theorem stale_response_overwrites :
    pagingFields (staleInterleaving (initialState (slotOnly none) blankDom) none
        (.loaded secondPage) (.loaded thirdPage)) = (2, 3, 5, [.num 3, .num 4]) ∧
      pagingFields (staleInterleaving (initialState (slotOnly none) blankDom) none
        (.loaded secondPage) (.loaded thirdPage)) ≠ responseFields thirdPage := by
  refine ⟨by decide, ?_⟩
  decide

/-- C7, amended: the script has no guard against stale responses.  When
`loadUsers(2)` and then `loadUsers(3)` are called and the response for page 2
is applied after the response for page 3, `currentPage`, `totalPages`,
`totalUsers` and `currentUsers` end as the response applied last, that of
page 2, defines them. -/
theorem last_applied_response_wins (s : State) (choices : Option (List String))
    (page2 page3 : UsersData) :
    (staleInterleaving s choices (.loaded page2) (.loaded page3)).currentPage
        = page2.pagination.page ∧
      (staleInterleaving s choices (.loaded page2) (.loaded page3)).totalPages
        = page2.pagination.total_pages ∧
      (staleInterleaving s choices (.loaded page2) (.loaded page3)).totalUsers
        = page2.pagination.total ∧
      (staleInterleaving s choices (.loaded page2) (.loaded page3)).currentUsers
        = page2.users := by
  obtain ⟨h1, h2, h3, h4, _, _⟩ := loadUsersResume_loaded
    (loadUsersResume (loadUsersStart (loadUsersStart s 2 choices).1 3 choices).1 (.loaded page3))
    page2
  exact ⟨h1, h2, h3, h4⟩

/-! ## C8: a page load that fails -/

theorem loadUsers_failed (s : State) (page : Int) (choices : Option (List String))
    (f : FetchFailure) :
    (loadUsers s page choices (.failed f)).currentPage = s.currentPage ∧
      (loadUsers s page choices (.failed f)).totalPages = s.totalPages ∧
      (loadUsers s page choices (.failed f)).totalUsers = s.totalUsers ∧
      (loadUsers s page choices (.failed f)).currentUsers = s.currentUsers :=
  ⟨rfl, rfl, rfl, rfl⟩

/-- C8, as stated, fails: on page 3, a change of the course filter whose
request fails at the transport leaves `currentPage` at 1, not at 3, while the
other three fields still describe page 3. -/
theorem filter_change_failure_resets_page :
    pagingFields onThirdPage = (3, 3, 5, [.num 5]) ∧
      pagingFields (courseFilterChanged onThirdPage (some ["MAT101"]) (.failed .transport))
        = (1, 3, 5, [.num 5]) ∧
      (courseFilterChanged onThirdPage (some ["MAT101"]) (.failed .transport)).currentPage
        ≠ onThirdPage.currentPage := by
  refine ⟨by decide, by decide, by decide⟩

/-- C8, amended: a page load that fails by a transport error, an unparseable
body or a body without the `pagination` object leaves `currentPage`,
`totalPages`, `totalUsers` and `currentUsers` as they were when `loadUsers` was
called.  For the previous and next controls these are the values before the
request; for a change of the course filter, `currentPage` has been set to 1
before the call and stays 1, and the other three fields are unchanged. -/
theorem failed_load_keeps_paging_state (s : State) (page : Int)
    (choices : Option (List String)) (f : FetchFailure) :
    ((loadUsers s page choices (.failed f)).currentPage = s.currentPage ∧
        (loadUsers s page choices (.failed f)).totalPages = s.totalPages ∧
        (loadUsers s page choices (.failed f)).totalUsers = s.totalUsers ∧
        (loadUsers s page choices (.failed f)).currentUsers = s.currentUsers) ∧
      ((clickPrevious s choices (.failed f)).currentPage = s.currentPage ∧
        (clickPrevious s choices (.failed f)).totalPages = s.totalPages ∧
        (clickPrevious s choices (.failed f)).totalUsers = s.totalUsers ∧
        (clickPrevious s choices (.failed f)).currentUsers = s.currentUsers) ∧
      ((clickNext s choices (.failed f)).currentPage = s.currentPage ∧
        (clickNext s choices (.failed f)).totalPages = s.totalPages ∧
        (clickNext s choices (.failed f)).totalUsers = s.totalUsers ∧
        (clickNext s choices (.failed f)).currentUsers = s.currentUsers) ∧
      ((courseFilterChanged s choices (.failed f)).currentPage = 1 ∧
        (courseFilterChanged s choices (.failed f)).totalPages = s.totalPages ∧
        (courseFilterChanged s choices (.failed f)).totalUsers = s.totalUsers ∧
        (courseFilterChanged s choices (.failed f)).currentUsers = s.currentUsers) := by
  refine ⟨loadUsers_failed s page choices f, ?_, ?_, ⟨rfl, rfl, rfl, rfl⟩⟩
  · unfold clickPrevious
    split
    · exact loadUsers_failed s _ choices f
    · exact ⟨rfl, rfl, rfl, rfl⟩
  · unfold clickNext
    split
    · exact loadUsers_failed s _ choices f
    · exact ⟨rfl, rfl, rfl, rfl⟩

/-! ## C9: the select-all control after a single toggle -/

/-- After a page has been loaded and rendered, the select-all control shows
whether the page is fully selected. -/
theorem page_load_select_all_accurate (s : State) (data : UsersData) :
    (loadUsersResume s (.loaded data)).dom.selectAllPage.checked =
      pageFullySelected (loadUsersResume s (.loaded data)) := by
  obtain ⟨_, _, _, h4, h5, _⟩ := loadUsersResume_loaded s data
  unfold pageFullySelected
  rw [h4, h5]
  simp only [loadUsersResume, updateStats, updatePagination, renderUsers, updateSelectAllCheckbox]
  cases hu : data.users with
  | nil => simp
  | cons u us => simp

/-- C9 at the failing input: on the rendered page with the single record 1 and
nothing selected, the select-all control is unchecked.  After
`toggleUserSelection(1, true)` the page is non-empty and every identifier of it
is selected, yet the control is still unchecked; `updateSelectAllCheckbox`,
which `renderUsers` calls and `toggleUserSelection` does not, would check it. -/
theorem select_all_stale_after_toggle :
    onSingleRecordPage.dom.selectAllPage = { checked := false, disabled := false } ∧
      ((toggleUserSelection alwaysStore onSingleRecordPage (.num 1) true).currentUsers ≠ [] ∧
        ∀ user ∈ (toggleUserSelection alwaysStore onSingleRecordPage (.num 1) true).currentUsers,
          (toggleUserSelection alwaysStore onSingleRecordPage (.num 1) true).selectedUserIds.has
            user.user_id = true) ∧
      (toggleUserSelection alwaysStore onSingleRecordPage (.num 1) true).dom.selectAllPage.checked
        = false ∧
      (updateSelectAllCheckbox
        (toggleUserSelection alwaysStore onSingleRecordPage (.num 1) true)).dom.selectAllPage.checked
        = true := by
  have hcu : onSingleRecordPage.currentUsers = [plainUser 1] :=
    (loadUsersResume_loaded _ singleRecordPage).2.2.2.1
  refine ⟨by decide, ⟨?_, ?_⟩, by decide, by decide⟩
  · rw [toggle_users, hcu]
    exact List.cons_ne_nil _ _
  · rw [toggle_users, hcu]
    intro user hu
    rw [List.mem_singleton] at hu
    subst hu
    decide

/-! ## C10: export -/

theorem exportSelected_state (s : State) (confirmed : Bool) (resp : ExportResponse) (now : Nat) :
    (exportSelected s confirmed resp now).1 = s := by
  unfold exportSelected
  split
  · rfl
  · cases confirmed
    · rfl
    · cases resp <;> rfl

/-- C10: `exportSelected` sends a request exactly when the selection is
non-empty and the user confirms, and then exactly one.  For the empty selection
it only shows the notice that nothing is selected, without asking for
confirmation.  The body of a request is the text of the object whose `user_ids`
member lists the members of `selectedUserIds`, each once.  The state, and with
it the selection, is as before, whatever the request delivers. -/
theorem export_request_contract (s : State) (confirmed : Bool) (resp : ExportResponse)
    (now : Nat) :
    ((exportSelected s confirmed resp now).2.countP Effect.isRequest =
        if s.selectedUserIds.size ≠ 0 ∧ confirmed = true then 1 else 0) ∧
      (s.selectedUserIds.size = 0 →
        (exportSelected s confirmed resp now).2 =
          [.alert "No hay usuarios seleccionados para exportar"]) ∧
      (∀ url body, Effect.post url body ∈ (exportSelected s confirmed resp now).2 →
        url = "/api/backup" ∧
          body = jsonStringify (.obj [("user_ids", .arr s.selectedUserIds.toArray)])) ∧
      (s.selectedUserIds.toArray.Nodup ∧
        ∀ x : JsVal, x ∈ s.selectedUserIds.toArray ↔ s.selectedUserIds.has x = true) ∧
      (exportSelected s confirmed resp now).1 = s := by
  refine ⟨?_, ?_, ?_, ⟨s.selectedUserIds.nodup, fun x => (JSSet.has_iff _ x).symm⟩,
    exportSelected_state s confirmed resp now⟩
  · unfold exportSelected
    by_cases h : s.selectedUserIds.size = 0
    · simp [h, Effect.isRequest]
    · cases confirmed
      · simp [h, Effect.isRequest]
      · cases resp <;> simp [h, Effect.isRequest]
  · intro h
    simp [exportSelected, h]
  · intro url body hmem
    unfold exportSelected at hmem
    by_cases h : s.selectedUserIds.size = 0
    · simp [h] at hmem
    · cases confirmed
      · simp [h] at hmem
      · cases resp <;> simp [h, exportBody] at hmem <;> exact hmem

/-- Witness for C10: with the selection 7, 42 and a confirmation the request
carries the body with exactly these two identifiers; with the empty selection
only the notice is shown. -/
theorem export_request_contract_witness :
    Effect.post "/api/backup" "\x7b\"user_ids\":[7,42]\x7d" ∈
        (exportSelected twoSelected true .file 1700000000000).2 ∧
      ("/api/backup" = "/api/backup" ∧
        "\x7b\"user_ids\":[7,42]\x7d" =
          jsonStringify (.obj [("user_ids", .arr twoSelected.selectedUserIds.toArray)])) ∧
      (initialState (slotOnly none) blankDom).selectedUserIds.size = 0 ∧
      (exportSelected (initialState (slotOnly none) blankDom) true .file 1700000000000).2 =
        [.alert "No hay usuarios seleccionados para exportar"] :=
  ⟨by decide,
   (export_request_contract twoSelected true .file 1700000000000).2.2.1 _ _ (by decide),
   rfl,
   (export_request_contract (initialState (slotOnly none) blankDom) true .file 1700000000000).2.1 rfl⟩

/-! ## Reading back what `JSON.stringify` wrote for a list of identifiers -/

theorem digitChar_spec : ∀ n < 10, isDigit (digitChar n) = true ∧ digitVal (digitChar n) = n ∧
    (digitChar n = '0' → n = 0) := by
  decide

theorem natDigits_all_digits : ∀ (fuel n : Nat), ∀ c ∈ natDigits fuel n, isDigit c = true := by
  intro fuel
  induction fuel with
  | zero => intro n c hc; simp [natDigits] at hc
  | succ fuel ih =>
    intro n c hc
    unfold natDigits at hc
    split at hc
    · rename_i hn
      rw [List.mem_singleton] at hc
      subst hc
      exact (digitChar_spec n hn).1
    · rw [List.mem_append, List.mem_singleton] at hc
      rcases hc with hc | hc
      · exact ih _ c hc
      · subst hc
        exact (digitChar_spec (n % 10) (Nat.mod_lt _ (by decide))).1

theorem digitsToNat_append (ds : List Char) (c : Char) :
    digitsToNat (ds ++ [c]) = 10 * digitsToNat ds + digitVal c := by
  simp [digitsToNat, List.foldl_append]

theorem digitsToNat_natDigits : ∀ (fuel n : Nat), n < fuel →
    digitsToNat (natDigits fuel n) = n := by
  intro fuel
  induction fuel with
  | zero => intro n h; omega
  | succ fuel ih =>
    intro n h
    unfold natDigits
    split
    · rename_i hn
      simp [digitsToNat, (digitChar_spec n hn).2.1]
    · rw [digitsToNat_append, ih (n / 10) (by omega),
        (digitChar_spec (n % 10) (Nat.mod_lt _ (by decide))).2.1]
      omega

theorem natDigits_head : ∀ (fuel n : Nat), n < fuel →
    ∃ c cs, natDigits fuel n = c :: cs ∧ (c = '0' → n = 0 ∧ cs = []) := by
  intro fuel
  induction fuel with
  | zero => intro n h; omega
  | succ fuel ih =>
    intro n h
    unfold natDigits
    split
    · rename_i hn
      exact ⟨digitChar n, [], rfl, fun h0 => ⟨(digitChar_spec n hn).2.2 h0, rfl⟩⟩
    · obtain ⟨c, cs, h1, h2⟩ := ih (n / 10) (by omega)
      refine ⟨c, cs ++ [digitChar (n % 10)], by rw [h1]; rfl, fun h0 => ?_⟩
      have := (h2 h0).1
      omega

theorem takeDigits_append (ds rest : List Char) (hds : ∀ c ∈ ds, isDigit c = true)
    (hrest : AtDelimiter rest) : takeDigits (ds ++ rest) = (ds, rest) := by
  induction ds with
  | nil =>
    cases rest with
    | nil => rfl
    | cons c cs =>
      have hc : isDigit c = false := by
        rcases hrest c cs rfl with h | h <;> subst h <;> decide
      simp [takeDigits, hc]
  | cons d ds ih =>
    have hd := hds d (List.mem_cons_self _ _)
    have := ih (fun c hc => hds c (List.mem_cons_of_mem _ hc))
    simp [takeDigits, hd, this]

theorem takeIntPart_natToText (n : Nat) (rest : List Char) (hrest : AtDelimiter rest) :
    takeIntPart (natToText n ++ rest) = some (natToText n, rest) := by
  obtain ⟨c, cs, h1, h2⟩ := natDigits_head (n + 1) n (Nat.lt_succ_self n)
  have hall := natDigits_all_digits (n + 1) n
  unfold natToText
  rw [h1] at hall ⊢
  simp only [List.cons_append, takeIntPart]
  by_cases h0 : c = '0'
  · obtain ⟨_, hcs⟩ := h2 h0
    subst hcs
    simp [h0]
  · have hc := hall c (List.mem_cons_self _ _)
    have := takeDigits_append cs rest (fun d hd => hall d (List.mem_cons_of_mem _ hd)) hrest
    simp [h0, hc, this]

theorem takeFraction_atDelimiter (rest : List Char) (hrest : AtDelimiter rest) :
    takeFraction rest = some ([], rest) := by
  cases rest with
  | nil => rfl
  | cons c cs =>
    have hc : c ≠ '.' := by
      rcases hrest c cs rfl with h | h <;> subst h <;> decide
    unfold takeFraction
    split
    · rename_i heq
      cases heq
      exact absurd rfl hc
    · rfl

theorem takeExponent_atDelimiter (rest : List Char) (hrest : AtDelimiter rest) :
    takeExponent rest = some (0, rest) := by
  cases rest with
  | nil => rfl
  | cons c cs =>
    have hc : ¬ (c = 'e' ∨ c = 'E') := by
      rcases hrest c cs rfl with h | h <;> subst h <;> decide
    simp [takeExponent, hc]

theorem parseUnsigned_natToText (neg : Bool) (n : Nat) (rest : List Char)
    (hrest : AtDelimiter rest) :
    parseUnsigned neg (natToText n ++ rest) =
      some (.num (if neg then - (n : Int) else n), rest) := by
  have hv : digitsToNat (natToText n) = n := digitsToNat_natDigits (n + 1) n (Nat.lt_succ_self n)
  simp [parseUnsigned, takeIntPart_natToText n rest hrest, takeFraction_atDelimiter rest hrest,
    takeExponent_atDelimiter rest hrest, hv]

theorem natToText_head_digit (n : Nat) :
    ∃ c cs, natToText n = c :: cs ∧ isDigit c = true := by
  obtain ⟨c, cs, h1, _⟩ := natDigits_head (n + 1) n (Nat.lt_succ_self n)
  refine ⟨c, cs, h1, ?_⟩
  have hall := natDigits_all_digits (n + 1) n
  rw [h1] at hall
  exact hall c (List.mem_cons_self _ _)

theorem parseNumber_intToText (z : Int) (rest : List Char) (hrest : AtDelimiter rest) :
    parseNumber (intToText z ++ rest) = some (.num z, rest) := by
  unfold intToText
  split
  · rename_i hz
    simp only [List.cons_append, parseNumber]
    rw [parseUnsigned_natToText true z.natAbs rest hrest]
    simp only [if_true, Option.some.injEq, Prod.mk.injEq, JsVal.num.injEq, and_true]
    omega
  · rename_i hz
    obtain ⟨c, cs, h1, hc⟩ := natToText_head_digit z.toNat
    have hne : c ≠ '-' := by
      intro h; subst h; revert hc; decide
    have hp : parseNumber (natToText z.toNat ++ rest) =
        parseUnsigned false (natToText z.toNat ++ rest) := by
      rw [h1]
      simp only [List.cons_append]
      unfold parseNumber
      split
      · rename_i heq
        cases heq
        exact absurd rfl hne
      · rfl
    rw [hp, parseUnsigned_natToText false z.toNat rest hrest]
    simp only [Bool.false_eq_true, if_false, Option.some.injEq, Prod.mk.injEq, JsVal.num.injEq,
      and_true]
    omega

theorem NumberStart.ne_structural {c : Char} (h : NumberStart c) :
    c ≠ '[' ∧ c ≠ '{' ∧ c ≠ '"' ∧ c ≠ 'n' ∧ c ≠ 't' ∧ c ≠ 'f' ∧ c ≠ ']' ∧ isWs c = false := by
  rcases h with h | h
  · subst h; decide
  · refine ⟨?_, ?_, ?_, ?_, ?_, ?_, ?_, ?_⟩
    all_goals first
      | (intro e; subst e; revert h; decide)
      | (by_contra hw
         simp only [isWs, Bool.or_eq_true, decide_eq_true_eq, Bool.not_eq_false] at hw
         rcases hw with ((hw | hw) | hw) | hw <;> subst hw <;> revert h <;> decide)

theorem intToText_head (z : Int) : ∃ c cs, intToText z = c :: cs ∧ NumberStart c := by
  unfold intToText
  split
  · exact ⟨'-', _, rfl, Or.inl rfl⟩
  · obtain ⟨c, cs, h1, hc⟩ := natToText_head_digit z.toNat
    exact ⟨c, cs, h1, Or.inr hc⟩

theorem parseValue_intToText (fuel : Nat) (z : Int) (rest : List Char)
    (hrest : AtDelimiter rest) :
    parseValue (fuel + 1) (intToText z ++ rest) = some (.num z, rest) := by
  obtain ⟨c, cs, h1, hc⟩ := intToText_head z
  obtain ⟨n1, n2, n3, n4, n5, n6, _, _⟩ := hc.ne_structural
  have hp := parseNumber_intToText z rest hrest
  rw [h1] at hp ⊢
  simp only [List.cons_append] at hp ⊢
  unfold parseValue
  simp only [n1, n2, n3, n4, n5, n6, if_false]
  exact hp

theorem hex4_control : ∀ n < 32,
    hex4 '0' '0' (digitChar (n / 16)) (digitChar (n % 16)) = some n := by
  decide

/-- The reader of string bodies gives back the characters that `quoteChar`
wrote, whatever follows the closing quote. -/
theorem parseStringBody_quoted : ∀ (cs : List Char) (fuel : Nat) (acc rest : List Char),
    cs.length + 1 ≤ fuel →
      parseStringBody fuel (cs.flatMap quoteChar ++ '"' :: rest) acc =
        some (acc.reverse ++ cs, rest) := by
  intro cs
  induction cs with
  | nil =>
    intro fuel acc rest hf
    obtain ⟨f, rfl⟩ : ∃ f, fuel = f + 1 := ⟨fuel - 1, by omega⟩
    simp [parseStringBody]
  | cons c cs ih =>
    intro fuel acc rest hf
    obtain ⟨f, rfl⟩ : ∃ f, fuel = f + 1 := ⟨fuel - 1, by omega⟩
    have hf2 : cs.length + 1 ≤ f := by simp only [List.length_cons] at hf; omega
    simp only [List.flatMap_cons, List.append_assoc]
    by_cases h1 : c = '"'
    · subst h1
      rw [show quoteChar '"' = ['\\', '"'] from by decide]
      unfold parseStringBody
      simp [ih f _ rest hf2]
    by_cases h2 : c = '\\'
    · subst h2
      rw [show quoteChar '\\' = ['\\', '\\'] from by decide]
      unfold parseStringBody
      simp [ih f _ rest hf2]
    by_cases h3 : c = '\n'
    · subst h3
      rw [show quoteChar '\n' = ['\\', 'n'] from by decide]
      unfold parseStringBody
      simp [ih f _ rest hf2]
    by_cases h4 : c = '\r'
    · subst h4
      rw [show quoteChar '\r' = ['\\', 'r'] from by decide]
      unfold parseStringBody
      simp [ih f _ rest hf2]
    by_cases h5 : c = '\t'
    · subst h5
      rw [show quoteChar '\t' = ['\\', 't'] from by decide]
      unfold parseStringBody
      simp [ih f _ rest hf2]
    by_cases h6 : c.toNat = 8
    · have hc : c = Char.ofNat 8 := by
        rw [← h6]; exact (Char.ofNat_toNat c).symm
      subst hc
      rw [show quoteChar (Char.ofNat 8) = ['\\', 'b'] from by decide]
      unfold parseStringBody
      simp [ih f _ rest hf2]
    by_cases h7 : c.toNat = 12
    · have hc : c = Char.ofNat 12 := by
        rw [← h7]; exact (Char.ofNat_toNat c).symm
      subst hc
      rw [show quoteChar (Char.ofNat 12) = ['\\', 'f'] from by decide]
      unfold parseStringBody
      simp [ih f _ rest hf2]
    by_cases h8 : c.toNat < 32
    · have hq : quoteChar c =
          ['\\', 'u', '0', '0', digitChar (c.toNat / 16), digitChar (c.toNat % 16)] := by
        simp [quoteChar, h1, h2, h3, h4, h5, h6, h7, h8]
      rw [hq]
      unfold parseStringBody
      have hh := hex4_control c.toNat h8
      have hlo : ¬ (55296 ≤ c.toNat ∧ c.toNat < 56320) := by omega
      have hhi : ¬ (56320 ≤ c.toNat ∧ c.toNat < 57344) := by omega
      simp [hh, hlo, hhi, ih f _ rest hf2, Char.ofNat_toNat]
    · have hq : quoteChar c = [c] := by
        simp [quoteChar, h1, h2, h3, h4, h5, h6, h7, h8]
      rw [hq]
      unfold parseStringBody
      simp [h1, h2, h8, ih f _ rest hf2]

theorem quoteChar_length (c : Char) : 1 ≤ (quoteChar c).length := by
  unfold quoteChar
  repeat' split
  all_goals simp

theorem quoted_length : ∀ cs : List Char, cs.length ≤ (cs.flatMap quoteChar).length := by
  intro cs
  induction cs with
  | nil => simp
  | cons c cs ih =>
    have := quoteChar_length c
    simp only [List.flatMap_cons, List.length_append, List.length_cons]
    omega

theorem parseValue_quoteString (fuel : Nat) (t : String) (rest : List Char) :
    parseValue (fuel + 1) (quoteString t ++ rest) = some (.str t, rest) := by
  have hq := quoted_length t.toList
  have hbody := parseStringBody_quoted t.toList
    ((t.toList.flatMap quoteChar ++ '"' :: rest).length + 1) [] rest
    (by simp only [List.length_append, List.length_cons]; omega)
  have htext : quoteString t ++ rest = '"' :: (t.toList.flatMap quoteChar ++ '"' :: rest) := by
    simp [quoteString]
  rw [htext]
  unfold parseValue
  rw [if_neg (by decide), if_neg (by decide), if_pos rfl]
  unfold parseString
  rw [hbody]
  rfl

theorem ValueStart.not_closing {c : Char} (h : ValueStart c) : c ≠ ']' ∧ isWs c = false := by
  rcases h with h | h
  · exact ⟨h.ne_structural.2.2.2.2.2.2.1, h.ne_structural.2.2.2.2.2.2.2⟩
  · subst h; decide

theorem parseValue_identifier (fuel : Nat) (v : JsVal) (rest : List Char)
    (hv : v.isIntOrString = true) (hrest : AtDelimiter rest) :
    parseValue (fuel + 1) (stringifyVal v ++ rest) = some (v, rest) := by
  cases v with
  | num z => exact parseValue_intToText fuel z rest hrest
  | str t => exact parseValue_quoteString fuel t rest
  | null => cases hv
  | bool b => cases hv
  | dec m e => cases hv
  | arr xs => cases hv
  | obj kvs => cases hv

theorem stringifyVal_head (v : JsVal) (hv : v.isIntOrString = true) :
    ∃ c cs, stringifyVal v = c :: cs ∧ ValueStart c := by
  cases v with
  | num z =>
    obtain ⟨c, cs, h1, hc⟩ := intToText_head z
    exact ⟨c, cs, by simp [stringifyVal, h1], Or.inl hc⟩
  | str t => exact ⟨'"', _, rfl, Or.inr rfl⟩
  | null => cases hv
  | bool b => cases hv
  | dec m e => cases hv
  | arr xs => cases hv
  | obj kvs => cases hv

theorem stringifyElements_head (x : JsVal) (xs : List JsVal) (hx : x.isIntOrString = true) :
    ∃ c cs, stringifyElements (x :: xs) = c :: cs ∧ ValueStart c := by
  obtain ⟨c, cs, h1, hc⟩ := stringifyVal_head x hx
  cases xs with
  | nil => exact ⟨c, cs, by simp [stringifyElements, h1], hc⟩
  | cons y ys =>
    exact ⟨c, cs ++ ',' :: stringifyElements (y :: ys), by simp [stringifyElements, h1], hc⟩

theorem skipWs_valueStart (c : Char) (cs : List Char) (hc : ValueStart c) :
    skipWs (c :: cs) = c :: cs := by
  simp [skipWs, hc.not_closing.2]

theorem parseElements_identifiers : ∀ (xs : List JsVal) (x : JsVal) (fuel : Nat)
    (rest : List Char), (∀ y ∈ x :: xs, y.isIntOrString = true) → xs.length + 2 ≤ fuel →
      parseElements fuel (stringifyElements (x :: xs) ++ ']' :: rest) =
        some (x :: xs, rest) := by
  intro xs
  induction xs with
  | nil =>
    intro x fuel rest hall hf
    obtain ⟨f, rfl⟩ : ∃ f, fuel = f + 2 := ⟨fuel - 2, by simp at hf; omega⟩
    have hv := parseValue_identifier f x (']' :: rest) (hall x (List.mem_cons_self _ _))
      (fun c cs h => by cases h; exact Or.inr rfl)
    simp [parseElements, stringifyElements, hv, skipWs, isWs]
  | cons y ys ih =>
    intro x fuel rest hall hf
    obtain ⟨f, rfl⟩ : ∃ f, fuel = f + 2 := ⟨fuel - 2, by simp at hf; omega⟩
    have hally : ∀ z ∈ y :: ys, z.isIntOrString = true :=
      fun z hz => hall z (List.mem_cons_of_mem _ hz)
    have hv := parseValue_identifier f x
      (',' :: (stringifyElements (y :: ys) ++ ']' :: rest)) (hall x (List.mem_cons_self _ _))
      (fun c cs h => by cases h; exact Or.inl rfl)
    obtain ⟨c, cs, h1, hc⟩ := stringifyElements_head y ys (hally y (List.mem_cons_self _ _))
    have hskip : skipWs (stringifyElements (y :: ys) ++ ']' :: rest) =
        stringifyElements (y :: ys) ++ ']' :: rest := by
      rw [h1]; exact skipWs_valueStart c _ hc
    have hrec := ih y (f + 1) rest hally (by simp at hf ⊢; omega)
    have htext : stringifyElements (x :: y :: ys) ++ ']' :: rest =
        stringifyVal x ++ ',' :: (stringifyElements (y :: ys) ++ ']' :: rest) := by
      simp [stringifyElements]
    have hcomma : ∀ text : List Char, skipWs (',' :: text) = ',' :: text :=
      fun text => by simp [skipWs, isWs]
    rw [htext]
    unfold parseElements
    rw [hv]
    simp only [hcomma, hskip, hrec]
    rfl

theorem stringifyElements_length : ∀ xs : List JsVal, (∀ y ∈ xs, y.isIntOrString = true) →
    xs.length ≤ (stringifyElements xs).length := by
  intro xs
  induction xs with
  | nil => intro _; simp
  | cons x xs ih =>
    intro hall
    obtain ⟨c, cs, h1, _⟩ := stringifyVal_head x (hall x (List.mem_cons_self _ _))
    have hrec := ih (fun y hy => hall y (List.mem_cons_of_mem _ hy))
    cases xs with
    | nil => simp [stringifyElements, h1]
    | cons y ys =>
      simp only [stringifyElements, List.length_append, List.length_cons] at hrec ⊢
      rw [h1]
      simp only [List.length_cons]
      omega

/-- `JSON.parse` reads back the array of integers and strings that
`JSON.stringify` wrote. -/
theorem jsonParse_stringify_identifiers (xs : List JsVal)
    (hall : ∀ y ∈ xs, y.isIntOrString = true) :
    jsonParse (jsonStringify (.arr xs)) = some (.arr xs) := by
  cases xs with
  | nil => decide
  | cons x xs =>
    obtain ⟨c, cs, h1, hc⟩ := stringifyElements_head x xs (hall x (List.mem_cons_self _ _))
    have hlen := stringifyElements_length (x :: xs) hall
    have hp := parseElements_identifiers xs x
      (2 * ('[' :: (stringifyElements (x :: xs) ++ [']'])).length + 1) [] hall
      (by simp only [List.length_cons, List.length_append] at hlen ⊢; omega)
    have hne : c ≠ ']' := hc.not_closing.1
    have hopen : ∀ text : List Char, skipWs ('[' :: text) = '[' :: text :=
      fun text => by simp [skipWs, isWs]
    have hskip : skipWs (stringifyElements (x :: xs) ++ [']']) =
        stringifyElements (x :: xs) ++ [']'] := by
      rw [h1]; exact skipWs_valueStart c _ hc
    have hexp : expectChar ']' (stringifyElements (x :: xs) ++ [']']) = none := by
      rw [h1]; simp [expectChar, hne]
    unfold jsonParse jsonStringify
    simp only [stringifyVal, String.length, String.toList]
    rw [hopen]
    unfold parseValue
    simp only [if_true, hskip, hexp, hp]
    simp [skipWs]

/-! ## The recursion budget of the JSON reader is sufficient -/

theorem skipWs_length : ∀ cs : List Char, (skipWs cs).length ≤ cs.length := by
  intro cs
  induction cs with
  | nil => simp [skipWs]
  | cons c cs ih =>
    unfold skipWs
    split
    · simp only [List.length_cons]; omega
    · exact Nat.le_refl _

theorem expectChar_some (ch : Char) (cs rest : List Char) (h : expectChar ch cs = some rest) :
    cs = ch :: rest := by
  cases cs with
  | nil => simp [expectChar] at h
  | cons c cs =>
    by_cases hc : c = ch
    · simp [expectChar, hc] at h
      rw [hc, h]
    · simp [expectChar, hc] at h

theorem takeDigits_length : ∀ cs : List Char, (takeDigits cs).2.length ≤ cs.length := by
  intro cs
  induction cs with
  | nil => simp [takeDigits]
  | cons c cs ih =>
    unfold takeDigits
    split
    · simp only [List.length_cons]; omega
    · exact Nat.le_refl _

theorem takeIntPart_length (cs ip rest : List Char) (h : takeIntPart cs = some (ip, rest)) :
    rest.length < cs.length := by
  cases cs with
  | nil => simp [takeIntPart] at h
  | cons c cs =>
    have hl := takeDigits_length cs
    by_cases h0 : c = '0'
    · simp [takeIntPart, h0] at h
      rw [← h.2]; simp
    · by_cases hd : isDigit c = true
      · simp [takeIntPart, h0, hd] at h
        rw [← h.2]; simp only [List.length_cons]; omega
      · simp [takeIntPart, h0, hd] at h

theorem takeFraction_length (cs fd rest : List Char) (h : takeFraction cs = some (fd, rest)) :
    rest.length ≤ cs.length := by
  unfold takeFraction at h
  split at h
  · rename_i cs1
    have hl := takeDigits_length cs1
    by_cases he : (takeDigits cs1).1 = []
    · simp [he] at h
    · simp only [he, if_false, Option.some.injEq] at h
      rw [h] at hl
      simp only [List.length_cons] at hl ⊢; omega
  · simp only [Option.some.injEq, Prod.mk.injEq] at h
    rw [h.2]

theorem digitsOrFail_length (r : List Char) (e : Int) (rest : List Char) (f : Nat → Int)
    (h : (if (takeDigits r).1 = [] then none
      else some (f (digitsToNat (takeDigits r).1), (takeDigits r).2)) = some (e, rest)) :
    rest.length ≤ r.length := by
  have hl := takeDigits_length r
  by_cases he : (takeDigits r).1 = []
  · simp [he] at h
  · simp only [he, if_false, Option.some.injEq, Prod.mk.injEq] at h
    rw [← h.2]; exact hl

theorem takeExponent_length (cs : List Char) (e : Int) (rest : List Char)
    (h : takeExponent cs = some (e, rest)) : rest.length ≤ cs.length := by
  cases cs with
  | nil => simp [takeExponent] at h; rw [h.2]
  | cons c cs =>
    by_cases hc : c = 'e' ∨ c = 'E'
    · simp only [takeExponent, hc, if_true] at h
      split at h
      · have := digitsOrFail_length _ e rest (fun n => - (n : Int)) h
        simp only [List.length_cons]; omega
      · have := digitsOrFail_length _ e rest (fun n => (n : Int)) h
        simp only [List.length_cons]; omega
      · have := digitsOrFail_length _ e rest (fun n => (n : Int)) h
        simp only [List.length_cons]; omega
    · simp only [takeExponent, hc, if_false, Option.some.injEq, Prod.mk.injEq] at h
      rw [h.2]

theorem parseUnsigned_length (neg : Bool) (cs : List Char) (v : JsVal) (rest : List Char)
    (h : parseUnsigned neg cs = some (v, rest)) : rest.length < cs.length := by
  unfold parseUnsigned at h
  split at h
  · cases h
  · rename_i ip cs1 h1
    have l1 := takeIntPart_length _ _ _ h1
    split at h
    · cases h
    · rename_i fd cs2 h2
      have l2 := takeFraction_length _ _ _ h2
      split at h
      · cases h
      · rename_i e cs3 h3
        have l3 := takeExponent_length _ _ _ h3
        simp only at h
        split at h
        all_goals
          simp only [Option.some.injEq, Prod.mk.injEq] at h
          rw [← h.2]; omega

theorem parseNumber_length (cs : List Char) (v : JsVal) (rest : List Char)
    (h : parseNumber cs = some (v, rest)) : rest.length < cs.length := by
  unfold parseNumber at h
  split at h
  · have := parseUnsigned_length _ _ _ _ h
    simp only [List.length_cons]; omega
  · exact parseUnsigned_length _ _ _ _ h

theorem parseLiteral_length (cs : List Char) (v : JsVal) (rest : List Char)
    (h : parseLiteral cs = some (v, rest)) : rest.length < cs.length := by
  unfold parseLiteral at h
  split at h
  all_goals first
    | (simp only [Option.some.injEq, Prod.mk.injEq] at h
       rw [← h.2]; simp only [List.length_cons]; omega)
    | cases h

theorem lowSurrogateAhead_length (cs : List Char) (m : Nat) (rest : List Char)
    (h : lowSurrogateAhead cs = some (m, rest)) : rest.length < cs.length := by
  unfold lowSurrogateAhead at h
  split at h
  · split at h
    · split at h
      · cases h; simp only [List.length_cons]; omega
      · cases h
    · cases h
  · cases h

theorem parseStringBody_length : ∀ (fuel : Nat) (cs acc r rest : List Char),
    parseStringBody fuel cs acc = some (r, rest) → rest.length < cs.length := by
  intro fuel
  induction fuel with
  | zero => intro cs acc r rest h; simp [parseStringBody] at h
  | succ fuel ih =>
    intro cs acc r rest h
    cases cs with
    | nil => simp [parseStringBody] at h
    | cons c cs =>
      unfold parseStringBody at h
      repeat' split at h
      all_goals first
        | (cases h; done)
        | (cases h; simp only [List.length_cons]; omega)
        | (have h2 := ih _ _ _ _ h
           simp only [List.length_cons] at h2 ⊢
           omega)
        | (have h2 := ih _ _ _ _ h
           rename_i hlow
           have h3 := lowSurrogateAhead_length _ _ _ hlow
           simp only [List.length_cons] at h2 h3 ⊢
           omega)

theorem parseString_length (cs : List Char) (t : String) (rest : List Char)
    (h : parseString cs = some (t, rest)) : rest.length < cs.length := by
  unfold parseString at h
  cases hb : parseStringBody (cs.length + 1) cs [] with
  | none => simp [hb] at h
  | some r =>
    obtain ⟨r1, r2⟩ := r
    simp only [hb, Option.map_some', Option.some.injEq, Prod.mk.injEq] at h
    rw [← h.2]
    exact parseStringBody_length _ _ _ _ _ hb

theorem parseValue_fuelBound (f : Nat) (hE : FuelBound parseElements f)
    (hM : FuelBound parseMembers f) : FuelBound parseValue (f + 1) := by
  intro cs v rest h
  cases cs with
  | nil => simp [parseValue] at h
  | cons c rest0 =>
    have hws := skipWs_length rest0
    unfold parseValue at h
    by_cases h1 : c = '['
    · simp only [h1, if_true] at h
      cases hx : expectChar ']' (skipWs rest0) with
      | some rest1 =>
        simp only [hx, Option.some.injEq, Prod.mk.injEq] at h
        have hl := congrArg List.length (expectChar_some _ _ _ hx)
        simp only [List.length_cons] at hl
        obtain ⟨hv, hr⟩ := h
        subst hv; subst hr
        refine ⟨by simp only [List.length_cons]; omega, fun g hg => ?_⟩
        obtain ⟨g1, rfl⟩ : ∃ g1, g = g1 + 1 := ⟨g - 1, by simp only [List.length_cons] at hg; omega⟩
        unfold parseValue
        simp only [h1, if_true, hx]
      | none =>
        simp only [hx] at h
        cases he : parseElements f (skipWs rest0) with
        | none => simp [he] at h
        | some r =>
          obtain ⟨vs, rest1⟩ := r
          simp only [he, Option.map_some', Option.some.injEq, Prod.mk.injEq] at h
          obtain ⟨hv, hr⟩ := h
          subst hv; subst hr
          obtain ⟨hlen, hfuel⟩ := hE _ _ _ he
          refine ⟨by simp only [List.length_cons]; omega, fun g hg => ?_⟩
          obtain ⟨g1, rfl⟩ : ∃ g1, g = g1 + 1 :=
            ⟨g - 1, by simp only [List.length_cons] at hg; omega⟩
          unfold parseValue
          simp only [h1, if_true, hx]
          rw [hfuel g1 (by simp only [List.length_cons] at hg; omega)]
          rfl
    · by_cases h2 : c = '{'
      · rw [if_neg h1, if_pos h2] at h
        cases hx : expectChar '}' (skipWs rest0) with
        | some rest1 =>
          simp only [hx, Option.some.injEq, Prod.mk.injEq] at h
          have hl := congrArg List.length (expectChar_some _ _ _ hx)
          simp only [List.length_cons] at hl
          obtain ⟨hv, hr⟩ := h
          subst hv; subst hr
          refine ⟨by simp only [List.length_cons]; omega, fun g hg => ?_⟩
          obtain ⟨g1, rfl⟩ : ∃ g1, g = g1 + 1 :=
            ⟨g - 1, by simp only [List.length_cons] at hg; omega⟩
          unfold parseValue
          rw [if_neg h1, if_pos h2]; simp only [hx]
        | none =>
          simp only [hx] at h
          cases he : parseMembers f (skipWs rest0) with
          | none => simp [he] at h
          | some r =>
            obtain ⟨kvs, rest1⟩ := r
            simp only [he, Option.map_some', Option.some.injEq, Prod.mk.injEq] at h
            obtain ⟨hv, hr⟩ := h
            subst hv; subst hr
            obtain ⟨hlen, hfuel⟩ := hM _ _ _ he
            refine ⟨by simp only [List.length_cons]; omega, fun g hg => ?_⟩
            obtain ⟨g1, rfl⟩ : ∃ g1, g = g1 + 1 :=
              ⟨g - 1, by simp only [List.length_cons] at hg; omega⟩
            unfold parseValue
            rw [if_neg h1, if_pos h2]; simp only [hx]
            rw [hfuel g1 (by simp only [List.length_cons] at hg; omega)]
            rfl
      · by_cases h3 : c = '"'
        · rw [if_neg h1, if_neg h2, if_pos h3] at h
          cases hs : parseString rest0 with
          | none => simp [hs] at h
          | some r =>
            obtain ⟨t, rest1⟩ := r
            simp only [hs, Option.map_some', Option.some.injEq, Prod.mk.injEq] at h
            obtain ⟨hv, hr⟩ := h
            subst hv; subst hr
            have hlen := parseString_length _ _ _ hs
            refine ⟨by simp only [List.length_cons]; omega, fun g hg => ?_⟩
            obtain ⟨g1, rfl⟩ : ∃ g1, g = g1 + 1 :=
              ⟨g - 1, by simp only [List.length_cons] at hg; omega⟩
            unfold parseValue
            rw [if_neg h1, if_neg h2, if_pos h3]; simp only [hs]
            rfl
        · by_cases h4 : c = 'n' ∨ c = 't' ∨ c = 'f'
          · rw [if_neg h1, if_neg h2, if_neg h3, if_pos h4] at h
            have hlen := parseLiteral_length _ _ _ h
            refine ⟨hlen, fun g hg => ?_⟩
            obtain ⟨g1, rfl⟩ : ∃ g1, g = g1 + 1 := ⟨g - 1, by omega⟩
            unfold parseValue
            rw [if_neg h1, if_neg h2, if_neg h3, if_pos h4]
            exact h
          · rw [if_neg h1, if_neg h2, if_neg h3, if_neg h4] at h
            have hlen := parseNumber_length _ _ _ h
            refine ⟨hlen, fun g hg => ?_⟩
            obtain ⟨g1, rfl⟩ : ∃ g1, g = g1 + 1 := ⟨g - 1, by omega⟩
            unfold parseValue
            rw [if_neg h1, if_neg h2, if_neg h3, if_neg h4]
            exact h

theorem parseElements_fuelBound (f : Nat) (hV : FuelBound parseValue f)
    (hE : FuelBound parseElements f) : FuelBound parseElements (f + 1) := by
  intro cs vs rest h
  unfold parseElements at h
  cases hv : parseValue f cs with
  | none => simp [hv] at h
  | some r =>
    obtain ⟨v, rest1⟩ := r
    obtain ⟨hlen1, hfuel1⟩ := hV _ _ _ hv
    have hws1 := skipWs_length rest1
    simp only [hv] at h
    split at h
    · rename_i rest2 hsk
      have hl2 := congrArg List.length hsk
      simp only [List.length_cons] at hl2
      have hws2 := skipWs_length rest2
      cases he : parseElements f (skipWs rest2) with
      | none => simp [he] at h
      | some r2 =>
        obtain ⟨vs2, rest3⟩ := r2
        obtain ⟨hlen3, hfuel3⟩ := hE _ _ _ he
        simp only [he, Option.map_some', Option.some.injEq, Prod.mk.injEq] at h
        obtain ⟨hv2, hr⟩ := h
        subst hv2; subst hr
        refine ⟨by omega, fun g hg => ?_⟩
        obtain ⟨g1, rfl⟩ : ∃ g1, g = g1 + 1 := ⟨g - 1, by omega⟩
        unfold parseElements
        rw [hfuel1 g1 (by omega)]
        simp only [hsk]
        rw [hfuel3 g1 (by omega)]
        rfl
    · rename_i rest2 hsk
      have hl2 := congrArg List.length hsk
      simp only [List.length_cons] at hl2
      simp only [Option.some.injEq, Prod.mk.injEq] at h
      obtain ⟨hv2, hr⟩ := h
      subst hv2; subst hr
      refine ⟨by omega, fun g hg => ?_⟩
      obtain ⟨g1, rfl⟩ : ∃ g1, g = g1 + 1 := ⟨g - 1, by omega⟩
      unfold parseElements
      rw [hfuel1 g1 (by omega)]
      simp only [hsk]
    · cases h

theorem parseMembers_fuelBound (f : Nat) (hV : FuelBound parseValue f)
    (hM : FuelBound parseMembers f) : FuelBound parseMembers (f + 1) := by
  intro cs kvs rest h
  unfold parseMembers at h
  split at h
  · rename_i rest0
    split at h
    · cases h
    · rename_i k rest1 hs
      have hlen0 := parseString_length _ _ _ hs
      have hws1 := skipWs_length rest1
      split at h
      · rename_i rest2 hsk1
        have hl2 := congrArg List.length hsk1
        simp only [List.length_cons] at hl2
        have hws2 := skipWs_length rest2
        split at h
        · cases h
        · rename_i v rest3 hv
          obtain ⟨hlen3, hfuel3⟩ := hV _ _ _ hv
          have hws3 := skipWs_length rest3
          split at h
          · rename_i rest4 hsk3
            have hl4 := congrArg List.length hsk3
            simp only [List.length_cons] at hl4
            have hws4 := skipWs_length rest4
            cases hm : parseMembers f (skipWs rest4) with
            | none => simp [hm] at h
            | some r2 =>
              obtain ⟨kvs2, rest5⟩ := r2
              obtain ⟨hlen5, hfuel5⟩ := hM _ _ _ hm
              simp only [hm, Option.map_some', Option.some.injEq, Prod.mk.injEq] at h
              obtain ⟨hv2, hr⟩ := h
              subst hv2; subst hr
              refine ⟨by simp only [List.length_cons]; omega, fun g hg => ?_⟩
              obtain ⟨g1, rfl⟩ : ∃ g1, g = g1 + 1 :=
                ⟨g - 1, by simp only [List.length_cons] at hg; omega⟩
              unfold parseMembers
              simp only [hs, hsk1]
              rw [hfuel3 g1 (by simp only [List.length_cons] at hg; omega)]
              simp only [hsk3]
              rw [hfuel5 g1 (by simp only [List.length_cons] at hg; omega)]
              rfl
          · rename_i rest4 hsk3
            have hl4 := congrArg List.length hsk3
            simp only [List.length_cons] at hl4
            simp only [Option.some.injEq, Prod.mk.injEq] at h
            obtain ⟨hv2, hr⟩ := h
            subst hv2; subst hr
            refine ⟨by simp only [List.length_cons]; omega, fun g hg => ?_⟩
            obtain ⟨g1, rfl⟩ : ∃ g1, g = g1 + 1 :=
              ⟨g - 1, by simp only [List.length_cons] at hg; omega⟩
            unfold parseMembers
            simp only [hs, hsk1]
            rw [hfuel3 g1 (by simp only [List.length_cons] at hg; omega)]
            simp only [hsk3]
          · cases h
      · cases h
  · cases h

theorem parse_fuelBound : ∀ f : Nat,
    FuelBound parseValue f ∧ FuelBound parseElements f ∧ FuelBound parseMembers f := by
  intro f
  induction f with
  | zero =>
    refine ⟨?_, ?_, ?_⟩
    · intro cs v rest h; simp [parseValue] at h
    · intro cs v rest h; simp [parseElements] at h
    · intro cs v rest h; simp [parseMembers] at h
  | succ f ih =>
    obtain ⟨hV, hE, hM⟩ := ih
    exact ⟨parseValue_fuelBound f hE hM, parseElements_fuelBound f hV hE,
      parseMembers_fuelBound f hV hM⟩

/-- The recursion budget of `jsonParse` is enough: with any larger budget the
reader gives the same result on the same text. -/
theorem parseValue_fuel_adequate (cs : List Char) (f : Nat) (hf : 2 * cs.length + 2 ≤ f) :
    parseValue f cs = parseValue (2 * cs.length + 2) cs := by
  cases h1 : parseValue f cs with
  | some r =>
    obtain ⟨v, rest⟩ := r
    obtain ⟨hlen, hfuel⟩ := (parse_fuelBound f).1 _ _ _ h1
    exact (hfuel _ (by omega)).symm
  | none =>
    cases h2 : parseValue (2 * cs.length + 2) cs with
    | none => rfl
    | some r =>
      obtain ⟨v, rest⟩ := r
      obtain ⟨hlen, hfuel⟩ := (parse_fuelBound _).1 _ _ _ h2
      rw [hfuel f (by omega)] at h1
      cases h1

/-- The recursion budget that `jsonParse` uses is enough: reading the same text
with any larger budget gives the same result, so `none` always stands for a
syntax error. -/
theorem jsonParse_fuel_adequate (text : String) (fuel : Nat)
    (hf : 2 * text.length + 2 ≤ fuel) :
    parseValue fuel (skipWs text.toList) =
      parseValue (2 * text.length + 2) (skipWs text.toList) := by
  have hl : (skipWs text.toList).length ≤ text.length := skipWs_length text.toList
  rw [parseValue_fuel_adequate _ fuel (by omega),
    parseValue_fuel_adequate _ (2 * text.length + 2) (by omega)]

/-! ## C5: write-through persistence -/

theorem JSSet.foldl_add_items : ∀ (xs : List JsVal) (acc : JSSet),
    (acc.items ++ xs).Nodup → (xs.foldl JSSet.add acc).items = acc.items ++ xs := by
  intro xs
  induction xs with
  | nil => intro acc _; simp
  | cons x xs ih =>
    intro acc h
    have hx : x ∉ acc.items := by
      intro hmem
      have := List.nodup_append.mp h
      exact this.2.2 hmem (List.mem_cons_self _ _)
    have hadd : (acc.add x).items = acc.items ++ [x] := by
      simp [JSSet.add, hx]
    rw [List.foldl_cons, ih (acc.add x) (by rw [hadd]; simpa using h), hadd]
    simp

theorem JSSet.ofList_items (s : JSSet) : JSSet.ofList s.items = s := by
  apply JSSet.ext_items
  have := JSSet.foldl_add_items s.items JSSet.empty (by simpa [JSSet.empty] using s.nodup)
  simpa [JSSet.ofList, JSSet.empty] using this

/-- Loading an item that holds the text written for a selection of integer or
string identifiers gives that selection. -/
theorem load_of_saved (t : State) (sel : JSSet)
    (hids : ∀ x ∈ sel.items, x.isIntOrString = true)
    (hslot : t.localStorage storageKey = some (selectionText sel)) :
    (loadSelectionFromStorage t).selectedUserIds = sel := by
  have hparse : jsonParse (selectionText sel) = some (.arr sel.items) :=
    jsonParse_stringify_identifiers sel.items hids
  have hne : selectionText sel ≠ "" := by
    intro h
    rw [h] at hparse
    have hempty : jsonParse "" = none := by decide
    rw [hempty] at hparse
    cases hparse
  unfold loadSelectionFromStorage loadSelectionTry
  rw [hslot]
  simp only [hne, if_false, hparse, newSet]
  exact JSSet.ofList_items sel

theorem toggle_storage (c : String → Bool) (s : State) (x : JsVal) (b : Bool)
    (hw : c (selectionText (toggleUserSelection c s x b).selectedUserIds) = true) :
    (toggleUserSelection c s x b).localStorage storageKey =
      some (selectionText (toggleUserSelection c s x b).selectedUserIds) := by
  rw [toggle_selected] at hw ⊢
  cases b
  · simp only [Bool.false_eq_true, if_false] at hw ⊢
    simp [toggleUserSelection, saveSelectionToStorage, hw, Storage.setItem]
  · simp only [if_true] at hw ⊢
    simp [toggleUserSelection, saveSelectionToStorage, hw, Storage.setItem]

theorem save_other_keys (c : String → Bool) (s : State) (k : String) (hk : k ≠ storageKey) :
    (saveSelectionToStorage c s).localStorage k = s.localStorage k := by
  unfold saveSelectionToStorage
  split
  · simp [Storage.setItem, hk]
  · rfl

theorem toggle_other_keys (c : String → Bool) (s : State) (x : JsVal) (b : Bool) (k : String)
    (hk : k ≠ storageKey) :
    (toggleUserSelection c s x b).localStorage k = s.localStorage k := by
  unfold toggleUserSelection
  rw [save_other_keys c _ k hk]
  cases b <;> rfl

theorem toggleEach_other_keys (c : String → Bool) (b : Bool) (k : String)
    (hk : k ≠ storageKey) (users : List User) :
    ∀ s : State, (toggleEach c b s users).localStorage k = s.localStorage k := by
  induction users with
  | nil => intro s; rfl
  | cons u rest ih =>
    intro s
    simp only [toggleEach, List.foldl_cons] at ih ⊢
    rw [ih, toggle_other_keys c s _ b k hk]

theorem toggleSelectAllPage_storage (c : String → Bool) (s : State) (b : Bool)
    (hpage : s.currentUsers ≠ [])
    (hw : c (selectionText (toggleSelectAllPage c s b).selectedUserIds) = true) :
    (toggleSelectAllPage c s b).localStorage storageKey =
      some (selectionText (toggleSelectAllPage c s b).selectedUserIds) := by
  obtain ⟨us, u, hus⟩ : ∃ us u, s.currentUsers = us ++ [u] := by
    rcases List.eq_nil_or_concat s.currentUsers with h | ⟨us, u, h⟩
    · exact absurd h hpage
    · exact ⟨us, u, by simpa using h⟩
  have hfold : toggleEach c b s s.currentUsers =
      toggleUserSelection c (toggleEach c b s us) u.user_id b := by
    rw [hus]
    simp [toggleEach, List.foldl_append]
  have hsel : (toggleSelectAllPage c s b).selectedUserIds =
      (toggleUserSelection c (toggleEach c b s us) u.user_id b).selectedUserIds := by
    rw [toggleSelectAllPage_selected, hfold]
  have hsto : (toggleSelectAllPage c s b).localStorage =
      (toggleUserSelection c (toggleEach c b s us) u.user_id b).localStorage := by
    show (toggleEach c b s s.currentUsers).localStorage = _
    rw [hfold]
  rw [hsel] at hw ⊢
  rw [hsto]
  exact toggle_storage c _ u.user_id b hw

/-- C5: write-through persistence.  After every `toggleUserSelection` call
whose write is accepted, and after every `toggleSelectAllPage` call on a
non-empty page whose last write is accepted, the item of `localStorage` under
the key `ufv_selected_users` is the text of the selection as it is in memory;
`loadSelectionFromStorage`, run on any state over that item, gives back exactly
that selection (its identifiers, integers or strings, in the same order), the
empty one included; and no other key of `localStorage` is written. -/
theorem write_through_persistence (canStore : String → Bool) (s t : State) (userId : JsVal)
    (selected : Bool) :
    (canStore (selectionText (toggleUserSelection canStore s userId selected).selectedUserIds)
        = true →
      (toggleUserSelection canStore s userId selected).localStorage storageKey =
          some (selectionText (toggleUserSelection canStore s userId selected).selectedUserIds) ∧
        ((∀ x ∈ (toggleUserSelection canStore s userId selected).selectedUserIds.items,
            x.isIntOrString = true) →
          t.localStorage storageKey =
            (toggleUserSelection canStore s userId selected).localStorage storageKey →
          (loadSelectionFromStorage t).selectedUserIds =
            (toggleUserSelection canStore s userId selected).selectedUserIds)) ∧
      (s.currentUsers ≠ [] →
        canStore (selectionText (toggleSelectAllPage canStore s selected).selectedUserIds)
          = true →
        (toggleSelectAllPage canStore s selected).localStorage storageKey =
            some (selectionText (toggleSelectAllPage canStore s selected).selectedUserIds) ∧
          ((∀ x ∈ (toggleSelectAllPage canStore s selected).selectedUserIds.items,
              x.isIntOrString = true) →
            t.localStorage storageKey =
              (toggleSelectAllPage canStore s selected).localStorage storageKey →
            (loadSelectionFromStorage t).selectedUserIds =
              (toggleSelectAllPage canStore s selected).selectedUserIds)) ∧
      (∀ key : String, key ≠ storageKey →
        (toggleUserSelection canStore s userId selected).localStorage key = s.localStorage key ∧
          (toggleSelectAllPage canStore s selected).localStorage key = s.localStorage key) := by
  refine ⟨?_, ?_, ?_⟩
  · intro hw
    have h1 := toggle_storage canStore s userId selected hw
    exact ⟨h1, fun hids ht => load_of_saved t _ hids (ht.trans h1)⟩
  · intro hpage hw
    have h1 := toggleSelectAllPage_storage canStore s selected hpage hw
    exact ⟨h1, fun hids ht => load_of_saved t _ hids (ht.trans h1)⟩
  · intro key hk
    exact ⟨toggle_other_keys canStore s userId selected key hk,
      toggleEach_other_keys canStore selected key hk s.currentUsers s⟩

/-- Witness for C5: selecting identifier 5 on top of 7, 42 writes the text
`[7,42,5]`, and a start-up over that item loads the same selection; selecting
the whole page 1, 2 on top of 1, 9 writes `[1,9,2]`, which loads back too. -/
theorem write_through_persistence_witness :
    selectionText (toggleUserSelection alwaysStore twoSelected (.num 5) true).selectedUserIds
        = "[7,42,5]" ∧
      ((toggleUserSelection alwaysStore twoSelected (.num 5) true).localStorage storageKey =
          some (selectionText
            (toggleUserSelection alwaysStore twoSelected (.num 5) true).selectedUserIds) ∧
        (loadSelectionFromStorage
            (initialState (slotOnly (some "[7,42,5]")) blankDom)).selectedUserIds =
          (toggleUserSelection alwaysStore twoSelected (.num 5) true).selectedUserIds) ∧
      selectionText (toggleSelectAllPage alwaysStore partlySelectedPage true).selectedUserIds
        = "[1,9,2]" ∧
      ((toggleSelectAllPage alwaysStore partlySelectedPage true).localStorage storageKey =
          some (selectionText
            (toggleSelectAllPage alwaysStore partlySelectedPage true).selectedUserIds) ∧
        (loadSelectionFromStorage
            (initialState (slotOnly (some "[1,9,2]")) blankDom)).selectedUserIds =
          (toggleSelectAllPage alwaysStore partlySelectedPage true).selectedUserIds) :=
  ⟨by decide,
   ⟨((write_through_persistence alwaysStore twoSelected
        (initialState (slotOnly (some "[7,42,5]")) blankDom) (.num 5) true).1 rfl).1,
    ((write_through_persistence alwaysStore twoSelected
        (initialState (slotOnly (some "[7,42,5]")) blankDom) (.num 5) true).1 rfl).2
      (by decide)
      (by decide)⟩,
   by decide,
   ⟨((write_through_persistence alwaysStore partlySelectedPage
        (initialState (slotOnly (some "[1,9,2]")) blankDom) (.num 0) true).2.1
        (List.cons_ne_nil _ _) rfl).1,
    ((write_through_persistence alwaysStore partlySelectedPage
        (initialState (slotOnly (some "[1,9,2]")) blankDom) (.num 0) true).2.1
        (List.cons_ne_nil _ _) rfl).2
      (by decide)
      (by decide)⟩⟩

end UfvUserManager
